import Mathlib

/-!
# Pharos-GB: ST7789 panel driver and cross-core scanline relay

A shallow embedding of `examples/st7789_pico/mk_st7789.c` (the register-level
driver) and of the relay in `examples/st7789_pico/main.c`.

The driver talks to the outside world only through seven externally supplied
primitives (`mk_st7789_set_rst`, `mk_st7789_set_dc`, `mk_st7789_set_cs`,
`mk_st7789_set_led`, `mk_st7789_spi_write`, `mk_st7789_spi_write16`,
`mk_st7789_delay_ms`).  A driver function is embedded as the list of primitive
calls it makes, in program order.
-/

namespace PharosGB

/-! ## Machine integers -/

/-- Conversion to `uint8_t`. -/
def u8 (n : Nat) : Nat := n % 256

/-- Conversion to `uint16_t`. -/
def u16 (n : Nat) : Nat := n % 65536

/-- Conversion of a (promoted, signed) `int` expression to `uint16_t`. -/
def u16i (z : Int) : Nat := (z % 65536).toNat

/-! ## Arrays -/

/-- The array store `a[i] = v`. -/
def array_set (a : Nat → Nat) (i v : Nat) : Nat → Nat :=
  fun k => if k = i then v else a k

/-! ## Constants of `mk_st7789.h` -/

def SCREEN_SIZE_X : Nat := 240
def SCREEN_SIZE_Y : Nat := 240

def ST7789_NOP : Nat := 0x00
def ST7789_SWRESET : Nat := 0x01
def ST7789_SLPIN : Nat := 0x10
def ST7789_SLPOUT : Nat := 0x11
def ST7789_NORON : Nat := 0x13
def ST7789_INVOFF : Nat := 0x20
def ST7789_INVON : Nat := 0x21
def ST7789_DISPOFF : Nat := 0x28
def ST7789_DISPON : Nat := 0x29
def ST7789_CASET : Nat := 0x2A
def ST7789_RASET : Nat := 0x2B
def ST7789_RAMWR : Nat := 0x2C
def ST7789_COLMOD : Nat := 0x3A
def ST7789_MADCTL : Nat := 0x36

def MADCTL_MY : Nat := 0x80

/-! ## Bus and control-line events -/

/-- One call of an externally supplied primitive.  `spi_write data` is
`mk_st7789_spi_write(data, len)` with the `len` bytes it was handed;
`spi_write16 halfwords` is `mk_st7789_spi_write16(halfwords, len)` with the
`len` halfwords it was handed. -/
inductive Event
  | set_rst (state : Bool)
  | set_dc (state : Bool)
  | set_cs (state : Bool)
  | set_led (state : Bool)
  | spi_write (data : List Nat)
  | spi_write16 (halfwords : List Nat)
  | delay_ms (ms : Nat)
  deriving DecidableEq, Repr

/-! ## `mk_st7789.c`: register helpers -/

/-- `static void write_command(uint8_t cmd)`. -/
def write_command (cmd : Nat) : List Event :=
  [Event.set_dc false, Event.set_cs false, Event.spi_write [u8 cmd], Event.set_cs true]

/-- `static void write_data(uint8_t data)`. -/
def write_data (data : Nat) : List Event :=
  [Event.set_dc true, Event.set_cs false, Event.spi_write [u8 data], Event.set_cs true]

/-- `static void write_data16(uint16_t data)`. -/
def write_data16 (data : Nat) : List Event :=
  [Event.set_dc true, Event.set_cs false, Event.spi_write16 [u16 data], Event.set_cs true]

/-- `static void set_register(uint8_t reg, uint8_t data)`. -/
def set_register (reg data : Nat) : List Event :=
  write_command reg ++ write_data data

/-- `static void set_register16(uint8_t reg, uint16_t data)`. -/
def set_register16 (reg data : Nat) : List Event :=
  write_command reg ++ write_data16 data

/-! ## `mk_st7789.c`: addressing -/

/-- `void mk_st7789_set_window(uint16_t hor_start, uint16_t hor_end,
uint16_t vert_start, uint16_t vert_end)`. -/
def mk_st7789_set_window (hor_start hor_end vert_start vert_end : Nat) : List Event :=
  write_command ST7789_CASET
    ++ write_data16 hor_start
    ++ write_data16 hor_end
    ++ write_command ST7789_RASET
    ++ write_data16 vert_start
    ++ write_data16 vert_end

/-- `void mk_st7789_set_address(uint16_t x, uint16_t y)`. -/
def mk_st7789_set_address (x y : Nat) : List Event :=
  write_command ST7789_CASET
    ++ write_data16 x
    ++ write_data16 x
    ++ write_command ST7789_RASET
    ++ write_data16 y
    ++ write_data16 y

/-! ## `mk_st7789.c`: initialisation -/

/-- `unsigned mk_st7789_init(void)`: the primitive calls it makes and the value
it returns. -/
def mk_st7789_init : List Event × Nat :=
  ( [Event.set_rst false, Event.delay_ms 100, Event.set_rst true, Event.delay_ms 100]
      ++ [Event.set_led true]
      ++ write_command ST7789_SWRESET ++ [Event.delay_ms 150]
      ++ write_command ST7789_SLPOUT ++ [Event.delay_ms 120]
      ++ set_register ST7789_COLMOD 0x55
      ++ set_register ST7789_MADCTL MADCTL_MY
      ++ write_command ST7789_CASET
      ++ write_data16 0x0000
      ++ write_data16 0x00EF
      ++ write_command ST7789_RASET
      ++ write_data16 0x0000
      ++ write_data16 0x00EF
      ++ write_command ST7789_NORON ++ [Event.delay_ms 10]
      ++ write_command ST7789_DISPON ++ [Event.delay_ms 120],
    0 )

/-! ## `mk_st7789.c`: pixel streaming -/

/-- `void mk_st7789_write_pixels_start(void)`. -/
def mk_st7789_write_pixels_start : List Event :=
  write_command ST7789_RAMWR ++ [Event.set_dc true, Event.set_cs false]

/-- `void mk_st7789_write_pixels_end(void)`. -/
def mk_st7789_write_pixels_end : List Event :=
  [Event.set_cs true]

/-- `void mk_st7789_write_pixels(const uint16_t *pixels, uint_fast16_t nmemb)`.
The pointer is embedded as the array it points to; the transmit primitive is
handed its first `nmemb` halfwords (a count beyond the array is an
out-of-bounds read in C and is outside this model). -/
def mk_st7789_write_pixels (pixels : List Nat) (nmemb : Nat) : List Event :=
  mk_st7789_write_pixels_start
    ++ [Event.spi_write16 (pixels.take nmemb)]
    ++ mk_st7789_write_pixels_end

/-! ## `mk_st7789.c`: display and power control -/

/-- `void mk_st7789_invert_display(bool invert)`. -/
def mk_st7789_invert_display (invert : Bool) : List Event :=
  write_command (if invert then ST7789_INVON else ST7789_INVOFF)

/-- `void mk_st7789_display_control(bool invert, st7789_color_mode_e colour_mode)`. -/
def mk_st7789_display_control (invert : Bool) (_colour_mode : Nat) : List Event :=
  mk_st7789_invert_display invert

/-- `void mk_st7789_power_control(bool sleep)`. -/
def mk_st7789_power_control (sleep : Bool) : List Event :=
  write_command (if sleep then ST7789_SLPIN else ST7789_SLPOUT)
    ++ (if !sleep then [Event.delay_ms 120] else [])

/-! ## `mk_st7789.c`: drawing -/

/-- The `for (uint16_t i = 0; i < w * h; i++)` loop of `mk_st7789_fill_rect`,
entered with counter value `i`.  The counter is a `uint16_t`, so the increment
wraps at 65536; the bound `w * h` is computed in `int` and is not truncated
(the model takes the exact product, which is what C computes while it fits an
`int`).  Each iteration hands one halfword to the transmit primitive.  `fuel`
bounds the number of loop tests; `none` means the loop was still running when
it ran out. -/
def fill_rect_loop (w h color : Nat) : Nat → Nat → Option (List Event)
  | 0, _ => none
  | fuel + 1, i =>
    if i < w * h then
      (fill_rect_loop w h color fuel (u16 (i + 1))).map
        (fun rest => Event.spi_write16 [color] :: rest)
    else
      some []

/-- `void mk_st7789_fill_rect(uint16_t x, uint16_t y, uint16_t w, uint16_t h,
uint16_t color)`.  The window bounds `x + w - 1` and `y + h - 1` are computed
in `int` and converted to `uint16_t` when passed on. -/
def mk_st7789_fill_rect (fuel : Nat) (x y w h color : Nat) : Option (List Event) :=
  let x := u16 x
  let y := u16 y
  let w := u16 w
  let h := u16 h
  let color := u16 color
  (fill_rect_loop w h color fuel 0).map (fun body =>
    mk_st7789_set_window x (u16i ((x : Int) + (w : Int) - 1)) y (u16i ((y : Int) + (h : Int) - 1))
      ++ mk_st7789_write_pixels_start
      ++ body
      ++ mk_st7789_write_pixels_end)

/-- `void mk_st7789_fill(uint16_t color)`. -/
def mk_st7789_fill (fuel : Nat) (color : Nat) : Option (List Event) :=
  mk_st7789_fill_rect fuel 0 0 SCREEN_SIZE_X SCREEN_SIZE_Y color

/-- `void mk_st7789_pixel(uint16_t x, uint16_t y, uint16_t color)`. -/
def mk_st7789_pixel (x y color : Nat) : List Event :=
  mk_st7789_set_address x y ++ mk_st7789_write_pixels [u16 color] 1

/-- `void mk_st7789_blit(uint16_t *fbuf, uint16_t x, uint16_t y, uint16_t w,
uint16_t h)`. -/
def mk_st7789_blit (fbuf : List Nat) (x y w h : Nat) : List Event :=
  let x := u16 x
  let y := u16 y
  let w := u16 w
  let h := u16 h
  mk_st7789_set_window x (u16i ((x : Int) + (w : Int) - 1)) y (u16i ((y : Int) + (h : Int) - 1))
    ++ mk_st7789_write_pixels fbuf (w * h)

/-! ## `mk_st7789.c`: text -/

/-- Conversion of a `char` (signed or unsigned) to `uint8_t`. -/
def u8i (z : Int) : Nat := (z % 256).toNat

/-- `static const uint8_t font_8x8[128][8]`: the initialiser writes out one
row; the other 127 rows are zero-initialised. -/
def font_8x8 : List (List Nat) :=
  [[0x00, 0x00, 0x00, 0x00, 0x00, 0x00, 0x00, 0x00]]
    ++ List.replicate 127 (List.replicate 8 0x00)

/-- The row of `font_8x8` that `mk_st7789_get_letter` reads for `letter`:
`char_index - 32` after the replacement of characters outside 32..126 by
space. -/
def mk_st7789_get_letter_index (letter : Int) : Nat :=
  let char_index := u8i letter
  let char_index := if char_index < 32 ∨ char_index > 126 then 32 else char_index
  char_index - 32

/-- `void mk_st7789_get_letter(uint16_t *fbuf, char letter, uint16_t color,
uint16_t bgcolor)`: the buffer it leaves from the buffer it finds. -/
def mk_st7789_get_letter (fbuf : Nat → Nat) (letter : Int) (color bgcolor : Nat) : Nat → Nat :=
  let char_data := font_8x8.getD (mk_st7789_get_letter_index letter) []
  (List.range 8).foldl
    (fun fbuf row =>
      let row_data := char_data.getD row 0
      (List.range 8).foldl
        (fun fbuf col =>
          let pixel_on := decide ((row_data >>> (7 - col)) &&& 1 ≠ 0)
          array_set fbuf (row * 8 + col) (if pixel_on then u16 color else u16 bgcolor))
        fbuf)
    fbuf

/-- The `while (*s)` loop of `mk_st7789_text`, on the characters from `s` on
(the end of the list standing for the terminating NUL) with the cursor at
`(current_x, current_y)`.  `char_buf` is the content the uninitialised local
array happens to have. -/
def mk_st7789_text_loop (char_buf : Nat → Nat) (x color bgcolor : Nat) :
    List Int → Nat → Nat → List Event
  | [], _, _ => []
  | c :: s, current_x, current_y =>
    if c = 0 then []
    else if c = 10 then
      mk_st7789_text_loop char_buf x color bgcolor s x (u16 (current_y + 8))
    else
      mk_st7789_blit
          ((List.range 64).map (mk_st7789_get_letter char_buf c color bgcolor))
          current_x current_y 8 8
        ++ mk_st7789_text_loop char_buf x color bgcolor s (u16 (current_x + 8)) current_y

/-- `void mk_st7789_text(char *s, uint16_t x, uint16_t y, uint16_t color,
uint16_t bgcolor)`. -/
def mk_st7789_text (char_buf : Nat → Nat) (s : List Int) (x y color bgcolor : Nat) :
    List Event :=
  mk_st7789_text_loop char_buf (u16 x) color bgcolor s (u16 x) (u16 y)

/-- The cells `mk_st7789_text` draws, as the cursor positions it blits at: one
per character other than newline, up to the first NUL. -/
def text_cells (x : Nat) : List Int → Nat → Nat → List (Nat × Nat)
  | [], _, _ => []
  | c :: s, current_x, current_y =>
    if c = 0 then []
    else if c = 10 then text_cells x s x (u16 (current_y + 8))
    else (current_x, current_y) :: text_cells x s (u16 (current_x + 8)) current_y

/-! ## A mock panel

The panel is hardware on the far side of the bus; nothing in the repository
implements it.  The mock below is the instrument the driver is observed with:
it keeps the control-line levels, the registers the driver's commands address,
the window, the write pointer and a log of every cell written.  Its addressing
is the one `mk_st7789.h` documents for `mk_st7789_set_window` ("Address will
loop within the window").  It takes each item handed to a transmit primitive
as one unit: a byte of `mk_st7789_spi_write` as one command or 8-bit parameter,
a halfword of `mk_st7789_spi_write16` as one 16-bit parameter or one pixel. -/

/-- State of the mock panel.  `gram` logs the pixel writes, oldest first, as
`(column, row, color)`. -/
structure Panel where
  rst : Bool
  led : Bool
  cs : Bool
  dc : Bool
  sleep_in : Bool
  display_on : Bool
  normal_on : Bool
  invert_on : Bool
  colmod : Nat
  madctl : Nat
  xs : Nat
  xe : Nat
  ys : Nat
  ye : Nat
  cmd : Nat
  nparam : Nat
  col : Nat
  row : Nat
  gram : List (Nat × Nat × Nat)
  deriving DecidableEq, Repr

/-- Registers after a hardware or software reset: sleep-in, display off, normal
mode, no inversion, 18-bit color, orientation 0, window over the whole
controller memory.  Lines, write pointer and memory are not touched. -/
def Panel.reset_regs (p : Panel) : Panel :=
  { p with
    sleep_in := true, display_on := false, normal_on := true, invert_on := false,
    colmod := 0x66, madctl := 0x00, xs := 0, xe := 239, ys := 0, ye := 319,
    cmd := ST7789_NOP, nparam := 0 }

/-- A command byte arrives (DC low).  The command is latched for the
parameters that follow; the parameterless commands take effect at once, and
the memory-write command puts the write pointer on the first cell of the
window. -/
def Panel.command (p : Panel) (c : Nat) : Panel :=
  if c = ST7789_SWRESET then { p.reset_regs with cmd := c }
  else if c = ST7789_SLPIN then { p with cmd := c, nparam := 0, sleep_in := true }
  else if c = ST7789_SLPOUT then { p with cmd := c, nparam := 0, sleep_in := false }
  else if c = ST7789_NORON then { p with cmd := c, nparam := 0, normal_on := true }
  else if c = ST7789_INVOFF then { p with cmd := c, nparam := 0, invert_on := false }
  else if c = ST7789_INVON then { p with cmd := c, nparam := 0, invert_on := true }
  else if c = ST7789_DISPOFF then { p with cmd := c, nparam := 0, display_on := false }
  else if c = ST7789_DISPON then { p with cmd := c, nparam := 0, display_on := true }
  else if c = ST7789_RAMWR then { p with cmd := c, nparam := 0, col := p.xs, row := p.ys }
  else { p with cmd := c, nparam := 0 }

/-- A data item arrives (DC high): one parameter of the latched command, or,
under the memory-write command, one pixel.  A pixel is stored at the write
pointer, which then moves one cell to the right, wraps to the window's first
column on the next row after the last column, and wraps to the window's first
cell after the last row. -/
def Panel.data (p : Panel) (v : Nat) : Panel :=
  if p.cmd = ST7789_CASET then
    if p.nparam = 0 then { p with xs := v, nparam := 1 }
    else if p.nparam = 1 then { p with xe := v, nparam := 2 }
    else p
  else if p.cmd = ST7789_RASET then
    if p.nparam = 0 then { p with ys := v, nparam := 1 }
    else if p.nparam = 1 then { p with ye := v, nparam := 2 }
    else p
  else if p.cmd = ST7789_COLMOD then
    if p.nparam = 0 then { p with colmod := v, nparam := 1 } else p
  else if p.cmd = ST7789_MADCTL then
    if p.nparam = 0 then { p with madctl := v, nparam := 1 } else p
  else if p.cmd = ST7789_RAMWR then
    { p with
      gram := p.gram ++ [(p.col, p.row, v)],
      col := if p.col < p.xe then p.col + 1 else p.xs,
      row := if p.col < p.xe then p.row else if p.row < p.ye then p.row + 1 else p.ys }
  else p

/-- Items put on the bus reach the panel while chip-select is low: as commands
when DC is low, as data when DC is high. -/
def Panel.receive (p : Panel) (items : List Nat) : Panel :=
  if p.cs then p
  else if p.dc then items.foldl Panel.data p
  else items.foldl Panel.command p

/-- Effect of one primitive call on the mock panel.  Asserting the reset line
(driving it low) resets the registers. -/
def Panel.step (p : Panel) : Event → Panel
  | Event.set_rst state => if state then { p with rst := true } else { p.reset_regs with rst := false }
  | Event.set_dc state => { p with dc := state }
  | Event.set_cs state => { p with cs := state }
  | Event.set_led state => { p with led := state }
  | Event.spi_write data => p.receive data
  | Event.spi_write16 halfwords => p.receive halfwords
  | Event.delay_ms _ => p

/-- The mock panel after a sequence of primitive calls. -/
def Panel.run (p : Panel) (es : List Event) : Panel :=
  es.foldl Panel.step p

/-- Read-back of a cell: the color of the latest logged write to it, if any. -/
def Panel.read (p : Panel) (x y : Nat) : Option Nat :=
  (p.gram.reverse.find? (fun e => decide (e.1 = x ∧ e.2.1 = y))).map (fun e => e.2.2)

/-- A panel just powered up: lines high, registers at their reset values,
nothing written. -/
def Panel.fresh : Panel :=
  { rst := true, led := false, cs := true, dc := true,
    sleep_in := true, display_on := false, normal_on := true, invert_on := false,
    colmod := 0x66, madctl := 0x00, xs := 0, xe := 239, ys := 0, ye := 319,
    cmd := ST7789_NOP, nparam := 0, col := 0, row := 0, gram := [] }

/-- The cells `0 .. n-1` of a window that starts at column `a`, row `c` and is
`w` columns wide, in row-major order, cell `i` carrying `color i`: entries are
`(column, row, color)`. -/
def row_major (a c w n : Nat) (color : Nat → Nat) : List (Nat × Nat × Nat) :=
  (List.range n).map (fun i => (a + i % w, c + i / w, color i))

/-- The address part of a logged write. -/
def cell_addr (e : Nat × Nat × Nat) : Nat × Nat := (e.1, e.2.1)

/-! ## `main.c`: the transmit primitives

`main.c` supplies the driver's two transmit primitives as calls of the SDK's
`spi_write_blocking` and `spi_write16_blocking` on `spi0`.  The two SDK
functions are not in the repository; they are parameters here, taking the data
bits per frame of the peripheral and the elements handed over, and giving the
frames sent, in order. -/

/-- The data bits per frame of `spi0`, as `main` sets them before core 1 is
started: `spi_set_format(spi0, 8, SPI_CPOL_0, SPI_CPHA_0, SPI_MSB_FIRST)`. -/
def SPI0_DATA_BITS : Nat := 8

/-- `void mk_st7789_spi_write(const uint8_t *data, size_t len)`:
`spi_write_blocking(spi0, data, len)`. -/
def mk_st7789_spi_write (spi_write_blocking : Nat → List Nat → List Nat)
    (data : List Nat) : List Nat :=
  spi_write_blocking SPI0_DATA_BITS data

/-- `void mk_st7789_spi_write16(const uint16_t *halfwords, size_t len)`:
`spi_write16_blocking(spi0, halfwords, len)`. -/
def mk_st7789_spi_write16 (spi_write16_blocking : Nat → List Nat → List Nat)
    (halfwords : List Nat) : List Nat :=
  spi_write16_blocking SPI0_DATA_BITS halfwords

/-- The frames a trace of the driver puts on the wire, in order: each
`spi_write` and `spi_write16` call sends what `main.c`'s primitive sends for
it, the control-line calls and the delays send nothing. -/
def wire (spi_write_blocking spi_write16_blocking : Nat → List Nat → List Nat) :
    List Event → List Nat
  | [] => []
  | Event.spi_write data :: es =>
      mk_st7789_spi_write spi_write_blocking data
        ++ wire spi_write_blocking spi_write16_blocking es
  | Event.spi_write16 halfwords :: es =>
      mk_st7789_spi_write16 spi_write16_blocking halfwords
        ++ wire spi_write_blocking spi_write16_blocking es
  | _ :: es => wire spi_write_blocking spi_write16_blocking es

/-- One frame per element, carrying the element's low `data_bits` bits, most
significant bit first: what the SDK documents of `spi_write_blocking` and
`spi_write16_blocking` on a peripheral set to `data_bits` bits per frame (the
bits of an element above the frame size are not transmitted). -/
def spi_frames (data_bits : Nat) (src : List Nat) : List Nat :=
  src.map (fun v => v % 2 ^ data_bits)

/-- The bytes on the wire for a window whose four bounds each go out as one
16-bit value, high byte first, after their command byte. -/
def set_window_big_endian (hor_start hor_end vert_start vert_end : Nat) : List Nat :=
  [ 0x2A, hor_start / 256 % 256, hor_start % 256, hor_end / 256 % 256, hor_end % 256,
    0x2B, vert_start / 256 % 256, vert_start % 256, vert_end / 256 % 256, vert_end % 256 ]

/-! ## `main.c`: data shared between the cores -/

def LCD_WIDTH : Nat := 160
def LCD_HEIGHT : Nat := 144

def CORE_CMD_NOP : Nat := 0
def CORE_CMD_LCD_LINE : Nat := 1
def CORE_CMD_IDLE_SET : Nat := 2
def CORE_CMD_SET_PIXEL : Nat := 3

/-- `union core_cmd`, struct view: four bytes. -/
structure core_cmd where
  cmd : Nat
  unused1 : Nat
  unused2 : Nat
  data : Nat
  deriving DecidableEq, Repr

/-- `union core_cmd`, `full` view: the same four bytes read as one `uint32_t`.
The target is little-endian, so `cmd` is the low byte and `data` the high
byte. -/
def core_cmd.full (c : core_cmd) : Nat :=
  u8 c.cmd + 256 * u8 c.unused1 + 65536 * u8 c.unused2 + 16777216 * u8 c.data

/-- `union core_cmd` after a store to the `full` view: the struct view of a
32-bit word. -/
def core_cmd.of_full (full : Nat) : core_cmd :=
  { cmd := full % 256,
    unused1 := full / 256 % 256,
    unused2 := full / 65536 % 256,
    data := full / 16777216 % 256 }

/-- `typedef uint16_t palette_t[4][4]`, as `palette layer shade`. -/
abbrev palette_t := Nat → Nat → Nat

/-- The assignment `palette[i][j] = v`. -/
def palette_set (palette : palette_t) (i j v : Nat) : palette_t :=
  fun a b => if a = i ∧ b = j then v else palette a b

/-- `void init_palette(void)`, as the palette it leaves from the palette it
finds. -/
def init_palette (palette : palette_t) : palette_t :=
  let palette := palette_set palette 0 0 0xE7F3
  let palette := palette_set palette 0 1 0xAD55
  let palette := palette_set palette 0 2 0x52AA
  let palette := palette_set palette 0 3 0x0000
  [1, 2, 3].foldl
    (fun palette i =>
      [0, 1, 2, 3].foldl (fun palette j => palette_set palette i j (palette 0 j)) palette)
    palette

/-- `memcpy(dst, src, n)` on byte arrays. -/
def memcpy (dst src : Nat → Nat) (n : Nat) : Nat → Nat :=
  fun k => if k < n then src k else dst k

/-! ## `main.c`: core 1 -/

/-- Body of the conversion loop of `core1_lcd_draw_line`: the color stored in
`fb[x]` for `pixel_data = pixels_buffer[x]`. -/
def lcd_pixel_color (palette : palette_t) (pixel_data : Nat) : Nat :=
  let shade := pixel_data &&& 3
  let layer := (pixel_data >>> 4) &&& 3
  palette layer shade

/-- What core 1 does to the world, in program order: a primitive call of the
panel driver, or the atomic store to `lcd_line_busy`. -/
inductive Core1Op
  | bus (e : Event)
  | store_busy (v : Nat)
  deriving DecidableEq, Repr

/-- `void core1_lcd_draw_line(const uint_fast8_t line)`, run against the
shared `pixels_buffer` and `palette`. -/
def core1_lcd_draw_line (palette : palette_t) (pixels_buffer : Nat → Nat) (line : Nat) :
    List Core1Op :=
  let fb := (List.range LCD_WIDTH).map (fun x => lcd_pixel_color palette (pixels_buffer x))
  let display_x := u16 ((SCREEN_SIZE_X - LCD_WIDTH) / 2)
  let display_y := u16 ((SCREEN_SIZE_Y - LCD_HEIGHT) / 2)
  (mk_st7789_set_window display_x (display_x + LCD_WIDTH - 1) (display_y + line) (display_y + line)
      ++ mk_st7789_write_pixels fb LCD_WIDTH).map Core1Op.bus
    ++ [Core1Op.store_busy 0]

/-- One turn of the `while(1)` loop of `main_core1` after the pop: the word is
stored through the `full` view and the `switch` reads the struct view. -/
def main_core1_dispatch (palette : palette_t) (pixels_buffer : Nat → Nat) (full : Nat) :
    List Core1Op :=
  let cmd := core_cmd.of_full full
  if cmd.cmd = CORE_CMD_LCD_LINE then
    core1_lcd_draw_line palette pixels_buffer cmd.data
  else if cmd.cmd = CORE_CMD_IDLE_SET then
    (mk_st7789_display_control true cmd.data).map Core1Op.bus
  else
    []

/-! ## `main.c`: core 0 -/

/-- The memory core 0 shares with core 1, and the inter-core FIFO towards
core 1 (oldest word first). -/
structure Shared where
  pixels_buffer : Nat → Nat
  lcd_line_busy : Nat
  fifo : List Nat

/-- `void lcd_draw_line(struct gb_s *gb, const uint8_t pixels[LCD_WIDTH],
const uint_fast8_t line)`, run with nothing else touching the shared memory.
`cmd` is the content the uninitialised local `union core_cmd cmd` happens to
have.  `fuel` bounds the number of tests of the busy loop; `none` means it was
still spinning when it ran out.  The function stores 1 to `lcd_line_busy`
first and pushes the word second; the result shows both done (the step machine
below keeps the two statements apart). -/
def lcd_draw_line (m : Shared) (pixels : Nat → Nat) (line : Nat) (cmd : core_cmd) :
    Nat → Option Shared
  | 0 => none
  | fuel + 1 =>
    if m.lcd_line_busy ≠ 0 then
      lcd_draw_line m pixels line cmd fuel
    else
      let pixels_buffer := memcpy m.pixels_buffer pixels LCD_WIDTH
      let cmd := { cmd with cmd := u8 CORE_CMD_LCD_LINE, data := u8 line }
      some { pixels_buffer := pixels_buffer, lcd_line_busy := 1, fifo := m.fifo ++ [cmd.full] }

/-! ## `main.c`: the two cores running together

Core 0 runs `lcd_draw_line` whenever the emulator has a scanline; core 1 runs
`main_core1`.  They share `pixels_buffer`, `lcd_line_busy` (accessed with
sequentially consistent atomics) and the inter-core FIFO.  The system is a
state machine in which a scheduler picks the core that executes its next
statement; `memcpy` and the conversion loop advance one array element per
step, so every interleaving of the accesses to `pixels_buffer` is covered. -/

/-- Where core 0 stands in `lcd_draw_line`: outside it, at the busy loop,
inside `memcpy`, before the store of 1 to `lcd_line_busy`, before the FIFO
push. -/
inductive PC0
  | idle
  | wait
  | copy
  | store
  | push
  deriving DecidableEq, Repr

/-- Where core 1 stands in `main_core1`: before its loop (initialising and
clearing the panel), at the FIFO pop, and inside `core1_lcd_draw_line`: in the
conversion loop, before `mk_st7789_set_window`, before
`mk_st7789_write_pixels`, before the store of 0 to `lcd_line_busy`. -/
inductive PC1
  | boot
  | pop
  | convert
  | window
  | pixels
  | free
  deriving DecidableEq, Repr

/-- Core 1 is inside `core1_lcd_draw_line`. -/
def PC1.drawing : PC1 → Bool
  | PC1.convert => true
  | PC1.window => true
  | PC1.pixels => true
  | PC1.free => true
  | _ => false

/-- State of the two cores.  `submitted` and `streamed` are history variables:
the `(line, pixels)` arguments of the calls of `lcd_draw_line` so far, and the
`(line, colors)` handed to the panel by `core1_lcd_draw_line` so far. -/
structure Sys where
  palette : palette_t
  pixels_buffer : Nat → Nat
  lcd_line_busy : Nat
  fifo : List Nat
  pc0 : PC0
  pixels : Nat → Nat
  line : Nat
  cmd : core_cmd
  n : Nat
  pc1 : PC1
  cmd1 : core_cmd
  line1 : Nat
  x : Nat
  fb : Nat → Nat
  bus : List Event
  submitted : List (Nat × (Nat → Nat))
  streamed : List (Nat × List Nat)

/-- The part of `main_core1` before its loop: `mk_st7789_init()`,
`mk_st7789_fill(0x0000)`, and the fill of the centred 160x144 region. -/
def main_core1_boot (fuel : Nat) : Option (List Event) :=
  (mk_st7789_fill fuel 0x0000).bind fun clear =>
    (mk_st7789_fill_rect fuel (u16 ((SCREEN_SIZE_X - LCD_WIDTH) / 2))
        (u16 ((SCREEN_SIZE_Y - LCD_HEIGHT) / 2)) LCD_WIDTH LCD_HEIGHT 0x0000).map fun region =>
      mk_st7789_init.1 ++ clear ++ region

/-- Core 0 enters `lcd_draw_line(gb, pixels, line)`; `cmd` is the content of
its uninitialised local.  Only possible while core 0 is outside the
function. -/
def core0_call (s : Sys) (pixels : Nat → Nat) (line : Nat) (cmd : core_cmd) : Sys :=
  if s.pc0 = PC0.idle then
    { s with
      pc0 := PC0.wait, pixels := pixels, line := line, cmd := cmd,
      submitted := s.submitted ++ [(line, pixels)] }
  else s

/-- Core 0 executes its next statement of `lcd_draw_line`. -/
def core0_step (s : Sys) : Sys :=
  match s.pc0 with
  | PC0.idle => s
  | PC0.wait =>
    if s.lcd_line_busy ≠ 0 then s else { s with pc0 := PC0.copy, n := 0 }
  | PC0.copy =>
    if s.n < LCD_WIDTH then
      { s with pixels_buffer := array_set s.pixels_buffer s.n (s.pixels s.n), n := s.n + 1 }
    else
      { s with
        pc0 := PC0.store,
        cmd := { s.cmd with cmd := u8 CORE_CMD_LCD_LINE, data := u8 s.line } }
  | PC0.store => { s with lcd_line_busy := 1, pc0 := PC0.push }
  | PC0.push => { s with fifo := s.fifo ++ [s.cmd.full], pc0 := PC0.idle }

/-- Core 1 executes its next statement of `main_core1`.  `boot` is the outcome
of the part before the loop: the calls it makes if it returns, `none` if it
does not return (core 1 then never reaches the loop).  The pop blocks on an
empty FIFO. -/
def core1_step_from (boot : Option (List Event)) (s : Sys) : Sys :=
  match s.pc1 with
  | PC1.boot =>
    match boot with
    | some es => { s with bus := s.bus ++ es, pc1 := PC1.pop }
    | none => s
  | PC1.pop =>
    match s.fifo with
    | [] => s
    | full :: rest =>
      let cmd := core_cmd.of_full full
      if cmd.cmd = CORE_CMD_LCD_LINE then
        { s with fifo := rest, cmd1 := cmd, line1 := cmd.data, x := 0, pc1 := PC1.convert }
      else if cmd.cmd = CORE_CMD_IDLE_SET then
        { s with fifo := rest, cmd1 := cmd,
                 bus := s.bus ++ mk_st7789_display_control true cmd.data }
      else
        { s with fifo := rest, cmd1 := cmd }
  | PC1.convert =>
    if s.x < LCD_WIDTH then
      { s with
        fb := array_set s.fb s.x (lcd_pixel_color s.palette (s.pixels_buffer s.x)),
        x := s.x + 1 }
    else
      { s with pc1 := PC1.window }
  | PC1.window =>
    let display_x := u16 ((SCREEN_SIZE_X - LCD_WIDTH) / 2)
    let display_y := u16 ((SCREEN_SIZE_Y - LCD_HEIGHT) / 2)
    { s with
      bus := s.bus ++ mk_st7789_set_window display_x (display_x + LCD_WIDTH - 1)
        (display_y + s.line1) (display_y + s.line1),
      pc1 := PC1.pixels }
  | PC1.pixels =>
    { s with
      bus := s.bus ++ mk_st7789_write_pixels ((List.range LCD_WIDTH).map s.fb) LCD_WIDTH,
      streamed := s.streamed ++ [(s.line1, (List.range LCD_WIDTH).map s.fb)],
      pc1 := PC1.free }
  | PC1.free => { s with lcd_line_busy := 0, pc1 := PC1.pop }

/-- Core 1 executes its next statement of `main_core1`, the part before the
loop being given 65537 tests of each fill loop (a loop over a 16-bit counter
that ends at all ends within 65536 tests). -/
def core1_step (s : Sys) : Sys :=
  core1_step_from (main_core1_boot 65537) s

/-- A scheduling decision: core 0 enters `lcd_draw_line` with some arguments,
core 0 executes a statement, or core 1 executes a statement. -/
inductive Sched
  | call (pixels : Nat → Nat) (line : Nat) (cmd : core_cmd)
  | core0
  | core1

/-- One step of the system. -/
def step (s : Sys) : Sched → Sys
  | Sched.call pixels line cmd => core0_call s pixels line cmd
  | Sched.core0 => core0_step s
  | Sched.core1 => core1_step s

/-- The system after a schedule. -/
def run (s : Sys) (sched : List Sched) : Sys :=
  sched.foldl step s

/-- The state in which `main` launches core 1: palette set up, buffer and flag
zero, FIFO empty, nothing drawn. -/
def Sys.start (palette : palette_t) : Sys :=
  { palette := palette,
    pixels_buffer := fun _ => 0,
    lcd_line_busy := 0,
    fifo := [],
    pc0 := PC0.idle,
    pixels := fun _ => 0,
    line := 0,
    cmd := { cmd := 0, unused1 := 0, unused2 := 0, data := 0 },
    n := 0,
    pc1 := PC1.boot,
    cmd1 := { cmd := 0, unused1 := 0, unused2 := 0, data := 0 },
    line1 := 0,
    x := 0,
    fb := fun _ => 0,
    bus := [],
    submitted := [],
    streamed := [] }

/-- The states the system can be in under some schedule. -/
def Reachable (s : Sys) : Prop :=
  ∃ (palette : palette_t) (sched : List Sched), s = run (Sys.start palette) sched

/-- Number of draw-line commands between their FIFO push and the store of 0
that ends `core1_lcd_draw_line`: those waiting in the FIFO, plus the one core 1
is carrying out. -/
def in_flight (s : Sys) : Nat :=
  (s.fifo.filter (fun full => decide ((core_cmd.of_full full).cmd = CORE_CMD_LCD_LINE))).length
    + (if s.pc1.drawing then 1 else 0)

/-- The calls of `lcd_draw_line` that have reached their FIFO push. -/
def sent (s : Sys) : List (Nat × (Nat → Nat)) :=
  if s.pc0 = PC0.idle then s.submitted else s.submitted.dropLast

/-- What the panel is to be handed for a submitted row: the line number as the
command word carries it, and the palette colors of the 160 pixels. -/
def shown (palette : palette_t) (r : Nat × (Nat → Nat)) : Nat × List Nat :=
  (u8 r.1, (List.range LCD_WIDTH).map (fun x => lcd_pixel_color palette (r.2 x)))

/-- Where the one outstanding row `r` stands while `lcd_line_busy` is set and
the push has happened; `init` are the rows sent before it.  Either its command
word is the only word in the FIFO, or core 1 has popped it and is converting
the buffer (the first `x` entries of `fb` done), or about to address and stream
it (all of `fb` done), or has streamed it and is about to clear the flag. -/
def Flight (s : Sys) (init : List (Nat × (Nat → Nat))) (r : Nat × (Nat → Nat)) : Prop :=
  match s.pc1 with
  | PC1.boot | PC1.pop =>
    (∃ full, s.fifo = [full] ∧ (core_cmd.of_full full).cmd = CORE_CMD_LCD_LINE
        ∧ (core_cmd.of_full full).data = u8 r.1)
      ∧ s.streamed = init.map (shown s.palette)
  | PC1.convert =>
    s.fifo = [] ∧ s.line1 = u8 r.1 ∧ s.x ≤ LCD_WIDTH
      ∧ (∀ k, k < s.x → s.fb k = lcd_pixel_color s.palette (r.2 k))
      ∧ s.streamed = init.map (shown s.palette)
  | PC1.window | PC1.pixels =>
    s.fifo = [] ∧ s.line1 = u8 r.1
      ∧ (∀ k, k < LCD_WIDTH → s.fb k = lcd_pixel_color s.palette (r.2 k))
      ∧ s.streamed = init.map (shown s.palette)
  | PC1.free =>
    s.fifo = [] ∧ s.streamed = (init ++ [r]).map (shown s.palette)

/-- The inductive invariant of the two-core system. -/
structure Inv (s : Sys) : Prop where
  busy_le : s.lcd_line_busy ≤ 1
  pending : s.pc0 ≠ PC0.idle → ∃ init, s.submitted = init ++ [(s.line, s.pixels)]
  quiet : s.lcd_line_busy = 0 →
    s.fifo = [] ∧ s.pc1.drawing = false ∧ s.pc0 ≠ PC0.push
      ∧ s.streamed = (sent s).map (shown s.palette)
  copying : s.pc0 = PC0.copy →
    s.lcd_line_busy = 0 ∧ s.n ≤ LCD_WIDTH ∧ ∀ k, k < s.n → s.pixels_buffer k = s.pixels k
  storing : s.pc0 = PC0.store →
    s.lcd_line_busy = 0 ∧ (∀ k, k < LCD_WIDTH → s.pixels_buffer k = s.pixels k)
      ∧ s.cmd.cmd = CORE_CMD_LCD_LINE ∧ s.cmd.data = u8 s.line
  pushing : s.pc0 = PC0.push →
    s.lcd_line_busy = 1 ∧ s.fifo = [] ∧ s.pc1.drawing = false
      ∧ (∀ k, k < LCD_WIDTH → s.pixels_buffer k = s.pixels k)
      ∧ s.cmd.cmd = CORE_CMD_LCD_LINE ∧ s.cmd.data = u8 s.line
      ∧ s.streamed = (sent s).map (shown s.palette)
  flying : s.lcd_line_busy = 1 → s.pc0 ≠ PC0.push →
    ∃ init r, sent s = init ++ [r]
      ∧ (∀ k, k < LCD_WIDTH → s.pixels_buffer k = r.2 k)
      ∧ Flight s init r

/-- The state in which core 0 has gone through one call of `lcd_draw_line` up
to and including the store of 1 to `lcd_line_busy`, and core 1 has not moved:
one call, then 163 statements of core 0 (the loop test, 160 bytes of `memcpy`,
the end of `memcpy` with the population of the command, the store). -/
def handoff_gap_state : Sys :=
  run (Sys.start (fun _ _ => 0))
    (Sched.call (fun _ => 0) 0 { cmd := 0, unused1 := 0, unused2 := 0, data := 0 }
      :: List.replicate 163 Sched.core0)

/-- Statements the two cores still have to execute to finish the rows
submitted so far (each word in the FIFO and each call not yet at its push
counting for the `LCD_WIDTH + 5` statements core 1 spends on a row). -/
def work (s : Sys) : Nat :=
  (match s.pc0 with
    | PC0.idle => 0
    | PC0.wait => 2 * LCD_WIDTH + 9
    | PC0.copy => (LCD_WIDTH - s.n) + LCD_WIDTH + 8
    | PC0.store => LCD_WIDTH + 7
    | PC0.push => LCD_WIDTH + 6)
  + (match s.pc1 with
    | PC1.boot => 1
    | PC1.pop => 0
    | PC1.convert => (LCD_WIDTH - s.x) + 4
    | PC1.window => 3
    | PC1.pixels => 2
    | PC1.free => 1)
  + s.fifo.length * (LCD_WIDTH + 5)

/-- A schedule that lets the system drain: core 1 runs whenever it has
something to do, core 0 otherwise. -/
def drain_step (s : Sys) : Sched :=
  if s.pc1 = PC1.pop ∧ s.fifo = [] then Sched.core0 else Sched.core1

/-- The state in which core 0 has completed one call of `lcd_draw_line` (line
7, pixels `0,1,2,3,0,...`) and core 1 has not moved: one call, then 164
statements of core 0. -/
def handoff_sent_state : Sys :=
  run (Sys.start (init_palette (fun _ _ => 0)))
    (Sched.call (fun k => k % 4) 7 { cmd := 0, unused1 := 77, unused2 := 200, data := 0 }
      :: List.replicate 164 Sched.core0)

/-! ## Theorems -/

/-- The primitive calls of `mk_st7789_set_window` for 16-bit bounds, in order:
the command byte 0x2A (DC low, CS low around a one-byte write), `hor_start` and
`hor_end` each as one halfword write of length one (DC high, CS low around
it), the command byte 0x2B, then `vert_start` and `vert_end` the same way. -/
theorem set_window_trace (hor_start hor_end vert_start vert_end : Nat)
    (h1 : hor_start < 65536) (h2 : hor_end < 65536)
    (h3 : vert_start < 65536) (h4 : vert_end < 65536) :
    mk_st7789_set_window hor_start hor_end vert_start vert_end =
      [ Event.set_dc false, Event.set_cs false, Event.spi_write [0x2A], Event.set_cs true,
        Event.set_dc true, Event.set_cs false, Event.spi_write16 [hor_start], Event.set_cs true,
        Event.set_dc true, Event.set_cs false, Event.spi_write16 [hor_end], Event.set_cs true,
        Event.set_dc false, Event.set_cs false, Event.spi_write [0x2B], Event.set_cs true,
        Event.set_dc true, Event.set_cs false, Event.spi_write16 [vert_start], Event.set_cs true,
        Event.set_dc true, Event.set_cs false, Event.spi_write16 [vert_end], Event.set_cs true ] := by
  simp [mk_st7789_set_window, write_command, write_data16, ST7789_CASET, ST7789_RASET, u8, u16,
    Nat.mod_eq_of_lt h1, Nat.mod_eq_of_lt h2, Nat.mod_eq_of_lt h3, Nat.mod_eq_of_lt h4]

/-- The primitive calls of `mk_st7789_set_window` for the full-screen window. -/
theorem set_window_trace_full_screen :
    mk_st7789_set_window 0 239 0 239 =
      [ Event.set_dc false, Event.set_cs false, Event.spi_write [0x2A], Event.set_cs true,
        Event.set_dc true, Event.set_cs false, Event.spi_write16 [0], Event.set_cs true,
        Event.set_dc true, Event.set_cs false, Event.spi_write16 [239], Event.set_cs true,
        Event.set_dc false, Event.set_cs false, Event.spi_write [0x2B], Event.set_cs true,
        Event.set_dc true, Event.set_cs false, Event.spi_write16 [0], Event.set_cs true,
        Event.set_dc true, Event.set_cs false, Event.spi_write16 [239], Event.set_cs true ] :=
  set_window_trace 0 239 0 239 (by decide) (by decide) (by decide) (by decide)

/-- C1: for 16-bit bounds, `mk_st7789_set_window` makes the calls the claim
lists, in the claim's order and nothing else: the command byte 0x2A under DC
low, `hor_start` and `hor_end` each handed to `mk_st7789_spi_write16` as one
halfword under DC high, the command byte 0x2B under DC low, `vert_start` and
`vert_end` as halfwords under DC high.  On the wire the bounds are not 16-bit
values: `main.c` passes each halfword to `spi_write16_blocking` on a peripheral
it has set to 8 data bits per frame, so, the SDK's two functions sending one
frame per element as documented, each bound goes out as its low byte alone.
The wire carries the six bytes 0x2A, `hor_start % 256`, `hor_end % 256`, 0x2B,
`vert_start % 256`, `vert_end % 256`, not the ten bytes of two commands and
four big-endian bounds; with 16 data bits per frame the same call of
`spi_write16_blocking` would send each bound whole. -/
theorem set_window_wire
    (spi_write_blocking spi_write16_blocking : Nat → List Nat → List Nat)
    (hsdk8 : ∀ bits src, spi_write_blocking bits src = spi_frames bits src)
    (hsdk16 : ∀ bits src, spi_write16_blocking bits src = spi_frames bits src)
    (hor_start hor_end vert_start vert_end : Nat)
    (h1 : hor_start < 65536) (h2 : hor_end < 65536)
    (h3 : vert_start < 65536) (h4 : vert_end < 65536) :
    mk_st7789_set_window hor_start hor_end vert_start vert_end =
      [ Event.set_dc false, Event.set_cs false, Event.spi_write [0x2A], Event.set_cs true,
        Event.set_dc true, Event.set_cs false, Event.spi_write16 [hor_start], Event.set_cs true,
        Event.set_dc true, Event.set_cs false, Event.spi_write16 [hor_end], Event.set_cs true,
        Event.set_dc false, Event.set_cs false, Event.spi_write [0x2B], Event.set_cs true,
        Event.set_dc true, Event.set_cs false, Event.spi_write16 [vert_start], Event.set_cs true,
        Event.set_dc true, Event.set_cs false, Event.spi_write16 [vert_end], Event.set_cs true ]
    ∧ wire spi_write_blocking spi_write16_blocking
          (mk_st7789_set_window hor_start hor_end vert_start vert_end) =
        [0x2A, hor_start % 256, hor_end % 256, 0x2B, vert_start % 256, vert_end % 256]
    ∧ wire spi_write_blocking spi_write16_blocking
          (mk_st7789_set_window hor_start hor_end vert_start vert_end) ≠
        set_window_big_endian hor_start hor_end vert_start vert_end
    ∧ spi_write16_blocking 16 [hor_start, hor_end, vert_start, vert_end] =
        [hor_start, hor_end, vert_start, vert_end] := by
  have htr := set_window_trace hor_start hor_end vert_start vert_end h1 h2 h3 h4
  have hw : wire spi_write_blocking spi_write16_blocking
      (mk_st7789_set_window hor_start hor_end vert_start vert_end) =
        [0x2A, hor_start % 256, hor_end % 256, 0x2B, vert_start % 256, vert_end % 256] := by
    rw [htr]
    simp [wire, mk_st7789_spi_write, mk_st7789_spi_write16, hsdk8, hsdk16, spi_frames,
      SPI0_DATA_BITS]
  refine ⟨htr, hw, ?_, ?_⟩
  · rw [hw]
    intro h
    have hlen := congrArg List.length h
    simp [set_window_big_endian] at hlen
  · rw [hsdk16]
    simp [spi_frames, Nat.mod_eq_of_lt h1, Nat.mod_eq_of_lt h2, Nat.mod_eq_of_lt h3,
      Nat.mod_eq_of_lt h4]

/-- Witness for C1 at the full-screen window that `mk_st7789_fill` sets: the
wire carries 0x2A, 0x00, 0xEF, 0x2B, 0x00, 0xEF. -/
theorem set_window_wire_witness :
    wire spi_frames spi_frames (mk_st7789_set_window 0 239 0 239) =
        [0x2A, 0x00, 0xEF, 0x2B, 0x00, 0xEF]
    ∧ wire spi_frames spi_frames (mk_st7789_set_window 0 239 0 239) ≠
        [0x2A, 0x00, 0x00, 0x00, 0xEF, 0x2B, 0x00, 0x00, 0x00, 0xEF]
    ∧ set_window_big_endian 0 239 0 239 =
        [0x2A, 0x00, 0x00, 0x00, 0xEF, 0x2B, 0x00, 0x00, 0x00, 0xEF] :=
  have h := set_window_wire spi_frames spi_frames (fun _ _ => rfl) (fun _ _ => rfl)
    0 239 0 239 (by decide) (by decide) (by decide) (by decide)
  ⟨h.2.1, h.2.2.1, by decide⟩

/-- C2: `mk_st7789_set_address x y` makes exactly the primitive calls of
`mk_st7789_set_window x x y y`, for all arguments. -/
theorem set_address_eq_set_window (x y : Nat) :
    mk_st7789_set_address x y = mk_st7789_set_window x x y y := by
  rfl

/-! ### The mock panel under the driver's sequences -/

theorem u8_of_lt {n : Nat} (h : n < 256) : u8 n = n := Nat.mod_eq_of_lt h

theorem u16_of_lt {n : Nat} (h : n < 65536) : u16 n = n := Nat.mod_eq_of_lt h

theorem run_append (p : Panel) (es fs : List Event) :
    p.run (es ++ fs) = (p.run es).run fs := by
  simp [Panel.run, List.foldl_append]

theorem run_set_window (p : Panel) (a b c d : Nat)
    (ha : a < 65536) (hb : b < 65536) (hc : c < 65536) (hd : d < 65536) :
    p.run (mk_st7789_set_window a b c d) =
      { p with dc := true, cs := true, xs := a, xe := b, ys := c, ye := d,
               cmd := ST7789_RASET, nparam := 2 } := by
  simp [Panel.run, mk_st7789_set_window, write_command, write_data16, Panel.step, Panel.receive,
    Panel.command, Panel.data, ST7789_CASET, ST7789_RASET, ST7789_SWRESET, ST7789_SLPIN,
    ST7789_SLPOUT, ST7789_NORON, ST7789_INVOFF, ST7789_INVON, ST7789_DISPOFF, ST7789_DISPON,
    ST7789_RAMWR, ST7789_COLMOD, ST7789_MADCTL, u8, u16_of_lt ha, u16_of_lt hb, u16_of_lt hc,
    u16_of_lt hd]

theorem run_write_pixels_start (p : Panel) :
    p.run mk_st7789_write_pixels_start =
      { p with dc := true, cs := false, cmd := ST7789_RAMWR, nparam := 0,
               col := p.xs, row := p.ys } := by
  simp [Panel.run, mk_st7789_write_pixels_start, write_command, Panel.step, Panel.receive,
    Panel.command, ST7789_CASET, ST7789_RASET, ST7789_SWRESET, ST7789_SLPIN,
    ST7789_SLPOUT, ST7789_NORON, ST7789_INVOFF, ST7789_INVON, ST7789_DISPOFF, ST7789_DISPON,
    ST7789_RAMWR, ST7789_COLMOD, ST7789_MADCTL, u8]

theorem succ_divmod_same_row (w i : Nat) (h : i % w + 1 < w) :
    (i + 1) % w = i % w + 1 ∧ (i + 1) / w = i / w := by
  have hw : 0 < w := by omega
  have e := Nat.div_add_mod i w
  have := (Nat.div_mod_unique hw).mpr
    ⟨(by omega : (i % w + 1) + w * (i / w) = i + 1), h⟩
  exact ⟨this.2, this.1⟩

theorem succ_divmod_next_row (w i : Nat) (hw : 0 < w) (h : i % w + 1 = w) :
    (i + 1) % w = 0 ∧ (i + 1) / w = i / w + 1 := by
  have e := Nat.div_add_mod i w
  have := (Nat.div_mod_unique hw).mpr
    ⟨(by rw [Nat.mul_add]; omega : 0 + w * (i / w + 1) = i + 1), hw⟩
  exact ⟨this.2, this.1⟩

/-- One pixel under the memory-write command: everything but the log and the
write pointer stays. -/
theorem data_ramwr (p : Panel) (v : Nat) (hc : p.cmd = ST7789_RAMWR) :
    Panel.data p v =
      { p with
        gram := p.gram ++ [(p.col, p.row, v)],
        col := if p.col < p.xe then p.col + 1 else p.xs,
        row := if p.col < p.xe then p.row else if p.row < p.ye then p.row + 1 else p.ys } := by
  simp [Panel.data, hc, ST7789_RAMWR, ST7789_CASET, ST7789_RASET, ST7789_COLMOD, ST7789_MADCTL]

/-- The pixels of a stream land at consecutive row-major cells of the window:
with the pointer on the `i`-th cell and the stream not running past the last
cell, the `j`-th pixel is logged at cell `i + j`. -/
theorem stream_pixels (a c w h : Nat) (hw : 0 < w) (l : List Nat) :
    ∀ (p : Panel) (i : Nat), p.cmd = ST7789_RAMWR → p.xs = a → p.xe = a + w - 1 → p.ys = c →
      p.ye = c + h - 1 → i + l.length ≤ w * h →
      (i < w * h → p.col = a + i % w ∧ p.row = c + i / w) →
      (l.foldl Panel.data p).gram =
          p.gram ++ (List.range l.length).map
            (fun j => (a + (i + j) % w, c + (i + j) / w, l.getD j 0))
        ∧ (l.foldl Panel.data p).cs = p.cs ∧ (l.foldl Panel.data p).dc = p.dc
        ∧ (l.foldl Panel.data p).xs = p.xs ∧ (l.foldl Panel.data p).xe = p.xe
        ∧ (l.foldl Panel.data p).ys = p.ys ∧ (l.foldl Panel.data p).ye = p.ye := by
  induction l with
  | nil => intro p i _ _ _ _ _ _ _; simp
  | cons v t ih =>
    intro p i hc hxs hxe hys hye hlen hptr
    have hi : i < w * h := by simp at hlen; omega
    obtain ⟨hcol, hrow⟩ := hptr hi
    have hstep := data_ramwr p v hc
    have hmod : i % w < w := Nat.mod_lt _ hw
    have key := ih (Panel.data p v) (i + 1) (by rw [hstep]; exact hc) (by rw [hstep]; exact hxs)
      (by rw [hstep]; exact hxe) (by rw [hstep]; exact hys) (by rw [hstep]; exact hye)
      (by simp at hlen ⊢; omega)
      (by
        intro hi1
        rw [hstep]
        simp only [hcol, hrow, hxe, hxs, hys, hye]
        by_cases hlast : i % w + 1 < w
        · obtain ⟨e1, e2⟩ := succ_divmod_same_row w i hlast
          have : a + i % w < a + w - 1 := by omega
          simp [this, e1, e2]; omega
        · have hl : i % w + 1 = w := by omega
          obtain ⟨e1, e2⟩ := succ_divmod_next_row w i hw hl
          have : ¬ (a + i % w < a + w - 1) := by omega
          have hq : (i + 1) / w < h := (Nat.div_lt_iff_lt_mul hw).mpr (by rw [Nat.mul_comm]; exact hi1)
          have : c + i / w < c + h - 1 := by omega
          simp [*]; omega)
    obtain ⟨kg, kcs, kdc, kxs, kxe, kys, kye⟩ := key
    simp only [List.foldl_cons]
    refine ⟨?_, ?_, ?_, ?_, ?_, ?_, ?_⟩
    · rw [kg, hstep]
      simp only [List.length_cons, List.range_succ_eq_map, List.map_cons, List.map_map,
        hcol, hrow]
      simp [Function.comp_def, Nat.add_assoc, Nat.add_comm 1]
    · rw [kcs, hstep]
    · rw [kdc, hstep]
    · rw [kxs, hstep]
    · rw [kxe, hstep]
    · rw [kys, hstep]
    · rw [kye, hstep]

theorem row_major_length (a c w n : Nat) (color : Nat → Nat) :
    (row_major a c w n color).length = n := by
  simp [row_major]

theorem row_major_get (a c w h : Nat) (color : Nat → Nat) (r k : Nat) (hr : r < h) (hk : k < w) :
    (row_major a c w (w * h) color)[r * w + k]? = some (a + k, c + r, color (r * w + k)) := by
  have hw : 0 < w := by omega
  have hlt : r * w + k < w * h := by
    have : (r + 1) * w ≤ h * w := Nat.mul_le_mul_right w hr
    rw [Nat.mul_comm w h]
    rw [Nat.add_mul] at this
    omega
  have e := (Nat.div_mod_unique hw).mpr
    ⟨(by rw [Nat.mul_comm w r]; omega : k + w * r = r * w + k), hk⟩
  simp [row_major, List.getElem?_range hlt, e.1, e.2]

theorem row_major_nodup (a c w n : Nat) (color : Nat → Nat) :
    ((row_major a c w n color).map cell_addr).Nodup := by
  simp only [row_major, List.map_map]
  refine List.Nodup.map_on ?_ (List.nodup_range n)
  intro i _ j _ hij
  simp only [Function.comp_def, cell_addr, Prod.mk.injEq] at hij
  have ei := Nat.div_add_mod i w
  have ej := Nat.div_add_mod j w
  have h1 : i % w = j % w := by omega
  have h2 : i / w = j / w := by omega
  rw [h1, h2] at ei
  omega

theorem row_major_mem (a c w h : Nat) (color : Nat → Nat) (hw : 0 < w) (x y : Nat) :
    (x, y) ∈ (row_major a c w (w * h) color).map cell_addr ↔
      (a ≤ x ∧ x < a + w ∧ c ≤ y ∧ y < c + h) := by
  simp only [row_major, List.map_map, List.mem_map, List.mem_range, Function.comp_def, cell_addr,
    Prod.mk.injEq]
  constructor
  · rintro ⟨i, hi, rfl, rfl⟩
    have h1 : i % w < w := Nat.mod_lt _ hw
    have h2 : i / w < h := (Nat.div_lt_iff_lt_mul hw).mpr (by rw [Nat.mul_comm]; exact hi)
    exact ⟨Nat.le_add_right _ _, Nat.add_lt_add_left h1 a, Nat.le_add_right _ _,
      Nat.add_lt_add_left h2 c⟩
  · rintro ⟨hx1, hx2, hy1, hy2⟩
    have e := (Nat.div_mod_unique hw).mpr
      ⟨(rfl : (x - a) + w * (y - c) = (x - a) + w * (y - c)), (by omega : x - a < w)⟩
    refine ⟨(x - a) + w * (y - c), ?_, ?_, ?_⟩
    · have : w * (y - c + 1) ≤ w * h := Nat.mul_le_mul_left w (by omega)
      rw [Nat.mul_add] at this
      omega
    · rw [e.2]; omega
    · rw [e.1]; omega

/-- The mock panel after `mk_st7789_set_window` and one pixel stream of at most
a window-full: the streamed halfwords are logged row-major from the window's
first cell; chip-select ends released. -/
theorem run_window_stream (p : Panel) (a c w h : Nat) (l : List Nat) (body : List Event)
    (hw : 0 < w) (hh : 0 < h) (ha : a + w ≤ 65536) (hc : c + h ≤ 65536)
    (hl : l.length ≤ w * h)
    (hbody : ∀ q : Panel, q.cs = false → q.dc = true → q.run body = q.receive l) :
    (p.run (mk_st7789_set_window a (a + w - 1) c (c + h - 1)
        ++ mk_st7789_write_pixels_start ++ body ++ mk_st7789_write_pixels_end)).gram
        = p.gram ++ row_major a c w l.length (fun j => l.getD j 0)
      ∧ (p.run (mk_st7789_set_window a (a + w - 1) c (c + h - 1)
        ++ mk_st7789_write_pixels_start ++ body ++ mk_st7789_write_pixels_end)).cs = true
      ∧ (p.run (mk_st7789_set_window a (a + w - 1) c (c + h - 1)
        ++ mk_st7789_write_pixels_start ++ body ++ mk_st7789_write_pixels_end)).xs = a
      ∧ (p.run (mk_st7789_set_window a (a + w - 1) c (c + h - 1)
        ++ mk_st7789_write_pixels_start ++ body ++ mk_st7789_write_pixels_end)).xe = a + w - 1
      ∧ (p.run (mk_st7789_set_window a (a + w - 1) c (c + h - 1)
        ++ mk_st7789_write_pixels_start ++ body ++ mk_st7789_write_pixels_end)).ys = c
      ∧ (p.run (mk_st7789_set_window a (a + w - 1) c (c + h - 1)
        ++ mk_st7789_write_pixels_start ++ body ++ mk_st7789_write_pixels_end)).ye = c + h - 1 := by
  rw [run_append, run_append, run_append,
    run_set_window p a (a + w - 1) c (c + h - 1) (by omega) (by omega) (by omega) (by omega),
    run_write_pixels_start, hbody _ rfl rfl]
  simp only [Panel.receive, Bool.false_eq_true, if_false, if_true]
  have key := stream_pixels a c w h hw l
    { p with dc := true, cs := false, xs := a, xe := a + w - 1, ys := c, ye := c + h - 1,
             cmd := ST7789_RAMWR, nparam := 0, col := a, row := c }
    0 rfl rfl rfl rfl rfl (by simpa using hl)
    (by intro _; simp [Nat.zero_mod, Nat.zero_div])
  obtain ⟨kg, -, -, kxs, kxe, kys, kye⟩ := key
  simp only [Panel.run, mk_st7789_write_pixels_end, List.foldl_cons, List.foldl_nil, Panel.step]
  refine ⟨?_, trivial, kxs, kxe, kys, kye⟩
  rw [kg]
  simp [row_major]

/-- C3: for a window `a ≤ b`, `c ≤ d` inside the 240x240 panel and a buffer of
`(b-a+1)*(d-c+1)` colors, `mk_st7789_write_pixels` makes exactly these calls:
command 0x2C (DC low, its own chip-select pulse), then DC high, CS low, the
whole buffer in one halfword write, CS high.  On the mock panel,
`mk_st7789_set_window a b c d` followed by that stream logs exactly the writes
`row_major`: the write with index `r*(b-a+1)+k` goes to cell `(a+k, c+r)` and
carries `buf[r*(b-a+1)+k]`; no cell is written twice, and the cells written are
exactly those of the rectangle. -/
theorem set_window_write_pixels_row_major (p : Panel) (a b c d : Nat) (buf : List Nat)
    (hab : a ≤ b) (hcd : c ≤ d) (hb : b < SCREEN_SIZE_X) (hd : d < SCREEN_SIZE_Y)
    (hlen : buf.length = (b - a + 1) * (d - c + 1)) :
    mk_st7789_write_pixels buf ((b - a + 1) * (d - c + 1)) =
        [Event.set_dc false, Event.set_cs false, Event.spi_write [0x2C], Event.set_cs true,
         Event.set_dc true, Event.set_cs false, Event.spi_write16 buf, Event.set_cs true]
    ∧ (p.run (mk_st7789_set_window a b c d
          ++ mk_st7789_write_pixels buf ((b - a + 1) * (d - c + 1)))).gram
        = p.gram
          ++ row_major a c (b - a + 1) ((b - a + 1) * (d - c + 1)) (fun i => buf.getD i 0)
    ∧ (p.run (mk_st7789_set_window a b c d
          ++ mk_st7789_write_pixels buf ((b - a + 1) * (d - c + 1)))).cs = true
    ∧ (∀ r k, r ≤ d - c → k ≤ b - a →
        r * (b - a + 1) + k < buf.length
        ∧ (row_major a c (b - a + 1) ((b - a + 1) * (d - c + 1))
            (fun i => buf.getD i 0))[r * (b - a + 1) + k]?
          = (buf[r * (b - a + 1) + k]?).map (fun v => (a + k, c + r, v)))
    ∧ ((row_major a c (b - a + 1) ((b - a + 1) * (d - c + 1))
          (fun i => buf.getD i 0)).map cell_addr).Nodup
    ∧ (∀ x y,
        (x, y) ∈ (row_major a c (b - a + 1) ((b - a + 1) * (d - c + 1))
          (fun i => buf.getD i 0)).map cell_addr
        ↔ (a ≤ x ∧ x ≤ b ∧ c ≤ y ∧ y ≤ d)) := by
  simp only [SCREEN_SIZE_X, SCREEN_SIZE_Y] at hb hd
  have htake : buf.take ((b - a + 1) * (d - c + 1)) = buf := by
    rw [← hlen]; exact List.take_length buf
  have hrun := run_window_stream p a c (b - a + 1) (d - c + 1) buf [Event.spi_write16 buf]
    (by omega) (by omega) (by omega) (by omega) (by omega)
    (by intro q _ _; simp [Panel.run, Panel.step])
  have eb : a + (b - a + 1) - 1 = b := by omega
  have ed : c + (d - c + 1) - 1 = d := by omega
  rw [eb, ed, hlen] at hrun
  have hev : mk_st7789_set_window a b c d ++ mk_st7789_write_pixels buf ((b - a + 1) * (d - c + 1))
      = mk_st7789_set_window a b c d ++ mk_st7789_write_pixels_start ++ [Event.spi_write16 buf]
          ++ mk_st7789_write_pixels_end := by
    simp [mk_st7789_write_pixels, htake]
  refine ⟨?_, ?_, ?_, ?_, ?_, ?_⟩
  · simp [mk_st7789_write_pixels, mk_st7789_write_pixels_start, mk_st7789_write_pixels_end,
      write_command, ST7789_RAMWR, u8, htake]
  · rw [hev]; exact hrun.1
  · rw [hev]; exact hrun.2.1
  · intro r k hr hk
    have hlt : r * (b - a + 1) + k < buf.length := by
      have : (r + 1) * (b - a + 1) ≤ (d - c + 1) * (b - a + 1) :=
        Nat.mul_le_mul_right _ (by omega)
      rw [hlen, Nat.mul_comm (b - a + 1) (d - c + 1)]
      rw [Nat.add_mul] at this
      omega
    refine ⟨hlt, ?_⟩
    rw [row_major_get a c (b - a + 1) (d - c + 1) _ r k (by omega) (by omega)]
    simp [List.getElem?_eq_getElem hlt, List.getD_eq_getElem?_getD]
  · exact row_major_nodup _ _ _ _ _
  · intro x y
    rw [row_major_mem a c (b - a + 1) (d - c + 1) _ (by omega) x y]
    omega

/-- Witness for C3: a 2x2 window at (1,5) on a fresh panel. -/
theorem set_window_write_pixels_row_major_witness :
    (Panel.fresh.run (mk_st7789_set_window 1 2 5 6
        ++ mk_st7789_write_pixels [10, 11, 12, 13] ((2 - 1 + 1) * (6 - 5 + 1)))).gram
      = [(1, 5, 10), (2, 5, 11), (1, 6, 12), (2, 6, 13)] :=
  (set_window_write_pixels_row_major Panel.fresh 1 2 5 6 [10, 11, 12, 13]
    (by decide) (by decide) (by decide) (by decide) (by decide)).2.1.trans (by decide)

/-! ### Rectangle fill -/

theorem fill_rect_loop_some (w h color : Nat) (hn : w * h ≤ 65535) :
    ∀ (k i fuel : Nat), i + k = w * h → k < fuel →
      fill_rect_loop w h color fuel i = some (List.replicate k (Event.spi_write16 [color])) := by
  intro k
  induction k with
  | zero =>
    intro i fuel hi hf
    obtain ⟨f, rfl⟩ : ∃ f, fuel = f + 1 := ⟨fuel - 1, by omega⟩
    have : ¬ i < w * h := by omega
    simp [fill_rect_loop, this]
  | succ k ih =>
    intro i fuel hi hf
    obtain ⟨f, rfl⟩ : ∃ f, fuel = f + 1 := ⟨fuel - 1, by omega⟩
    have hlt : i < w * h := by omega
    have hu : u16 (i + 1) = i + 1 := u16_of_lt (by omega)
    simp [fill_rect_loop, hlt, hu, ih (i + 1) f (by omega) (by omega), List.replicate_succ]

theorem data_lines (q : Panel) (v : Nat) :
    (Panel.data q v).cs = q.cs ∧ (Panel.data q v).dc = q.dc := by
  unfold Panel.data
  repeat' split
  all_goals exact ⟨rfl, rfl⟩

theorem run_replicate_write16 (color : Nat) :
    ∀ (n : Nat) (q : Panel), q.cs = false → q.dc = true →
      q.run (List.replicate n (Event.spi_write16 [color])) = q.receive (List.replicate n color) := by
  intro n
  induction n with
  | zero => intro q h1 h2; simp [Panel.run, Panel.receive, h1, h2]
  | succ n ih =>
    intro q h1 h2
    have hstep : q.step (Event.spi_write16 [color]) = Panel.data q color := by
      simp [Panel.step, Panel.receive, h1, h2]
    have hl := data_lines q color
    have := ih (Panel.data q color) (by rw [hl.1, h1]) (by rw [hl.2, h2])
    simp only [Panel.run] at this ⊢
    rw [List.replicate_succ, List.foldl_cons, hstep, this]
    simp [Panel.receive, h1, h2, hl.1, hl.2, List.replicate_succ]

theorem read_of_not_written (p q : Panel) (new : List (Nat × Nat × Nat))
    (hg : q.gram = p.gram ++ new) (x y : Nat) (hn : (x, y) ∉ new.map cell_addr) :
    q.read x y = p.read x y := by
  have hnone : List.find? (fun e => decide (e.1 = x ∧ e.2.1 = y)) new.reverse = none := by
    rw [List.find?_eq_none]
    intro e he hp
    apply hn
    simp only [List.mem_reverse] at he
    simp only [decide_eq_true_eq] at hp
    exact List.mem_map.mpr ⟨e, he, by simp [cell_addr, hp.1, hp.2]⟩
  unfold Panel.read
  rw [hg, List.reverse_append, List.find?_append, hnone]
  rfl

theorem read_of_written (p q : Panel) (new : List (Nat × Nat × Nat))
    (hg : q.gram = p.gram ++ new) (x y v : Nat) (hm : (x, y) ∈ new.map cell_addr)
    (hv : ∀ e ∈ new, cell_addr e = (x, y) → e.2.2 = v) :
    q.read x y = some v := by
  obtain ⟨e0, he0, hc0⟩ := List.mem_map.mp hm
  simp only [cell_addr, Prod.mk.injEq] at hc0
  cases hf : List.find? (fun e => decide (e.1 = x ∧ e.2.1 = y)) new.reverse with
  | none =>
    rw [List.find?_eq_none] at hf
    exact absurd (by simpa using hc0) (hf e0 (List.mem_reverse.mpr he0))
  | some e =>
    have hp := List.find?_some hf
    have hmem := List.mem_reverse.mp (List.mem_of_find?_eq_some hf)
    simp only [decide_eq_true_eq] at hp
    have := hv e hmem (by simp [cell_addr, hp.1, hp.2])
    unfold Panel.read
    rw [hg, List.reverse_append, List.find?_append, hf]
    show some e.2.2 = some v
    rw [this]

theorem u16i_pred (x w : Nat) (hw : 1 ≤ w) (hx : x + w ≤ 65536) :
    u16i ((x : Int) + (w : Int) - 1) = x + w - 1 := by
  simp only [u16i]
  omega

/-- C4: for `w ≥ 1`, `h ≥ 1`, `x + w ≤ 240`, `y + h ≤ 240` and a 16-bit color,
`mk_st7789_fill_rect` returns (any fuel above `w*h` suffices) after making the
calls of `mk_st7789_set_window x (x+w-1) y (y+h-1)`, then those of
`mk_st7789_write_pixels_start`, then exactly `w*h` one-halfword writes of
`color`, then `mk_st7789_write_pixels_end`.  On the mock panel the window
registers end at columns `x..x+w-1`, rows `y..y+h-1`; the `w*h` writes logged
are the row-major cells of the rectangle, each once, each with `color`; every
cell of the rectangle reads back `color`; no cell outside it was written, and
such a cell reads back what it read before. -/
theorem fill_rect_fills (p : Panel) (fuel x y w h color : Nat)
    (hw : 1 ≤ w) (hh : 1 ≤ h) (hx : x + w ≤ SCREEN_SIZE_X) (hy : y + h ≤ SCREEN_SIZE_Y)
    (hcolor : color < 65536) (hfuel : w * h < fuel) :
    ∃ events,
      mk_st7789_fill_rect fuel x y w h color = some events
      ∧ events = mk_st7789_set_window x (x + w - 1) y (y + h - 1)
          ++ mk_st7789_write_pixels_start
          ++ List.replicate (w * h) (Event.spi_write16 [color])
          ++ mk_st7789_write_pixels_end
      ∧ ((p.run events).xs = x ∧ (p.run events).xe = x + w - 1
          ∧ (p.run events).ys = y ∧ (p.run events).ye = y + h - 1)
      ∧ (p.run events).gram = p.gram ++ row_major x y w (w * h) (fun _ => color)
      ∧ (row_major x y w (w * h) (fun _ => color)).length = w * h
      ∧ (∀ e ∈ row_major x y w (w * h) (fun _ => color), e.2.2 = color)
      ∧ ((row_major x y w (w * h) (fun _ => color)).map cell_addr).Nodup
      ∧ (∀ cx cy, x ≤ cx → cx < x + w → y ≤ cy → cy < y + h →
          (p.run events).read cx cy = some color)
      ∧ (∀ cx cy, ¬ (x ≤ cx ∧ cx < x + w ∧ y ≤ cy ∧ cy < y + h) →
          (cx, cy) ∉ (row_major x y w (w * h) (fun _ => color)).map cell_addr
          ∧ (p.run events).read cx cy = p.read cx cy) := by
  simp only [SCREEN_SIZE_X, SCREEN_SIZE_Y] at hx hy
  have hwh : w * h ≤ 65535 := by
    have : w * h ≤ 240 * 240 := Nat.mul_le_mul (by omega) (by omega)
    omega
  have hloop := fill_rect_loop_some w h color hwh (w * h) 0 fuel (by omega) hfuel
  have hrun := run_window_stream p x y w h (List.replicate (w * h) color)
    (List.replicate (w * h) (Event.spi_write16 [color]))
    (by omega) (by omega) (by omega) (by omega) (by simp)
    (fun q h1 h2 => run_replicate_write16 color (w * h) q h1 h2)
  have hcells : row_major x y w (List.replicate (w * h) color).length
      (fun j => (List.replicate (w * h) color).getD j 0)
      = row_major x y w (w * h) (fun _ => color) := by
    simp only [row_major, List.length_replicate]
    apply List.map_congr_left
    intro i hi
    have hi' : i < w * h := List.mem_range.mp hi
    simp [List.getD_eq_getElem?_getD, List.getElem?_replicate, hi']
  rw [hcells] at hrun
  obtain ⟨hg, -, hxs, hxe, hys, hye⟩ := hrun
  have hval : ∀ e ∈ row_major x y w (w * h) (fun _ => color), e.2.2 = color := by
    intro e he
    simp only [row_major, List.mem_map] at he
    obtain ⟨i, -, rfl⟩ := he
    rfl
  refine ⟨_, ?_, rfl, ⟨hxs, hxe, hys, hye⟩, hg, row_major_length _ _ _ _ _, hval,
    row_major_nodup _ _ _ _ _, ?_, ?_⟩
  · simp [mk_st7789_fill_rect, u16_of_lt (show x < 65536 by omega),
      u16_of_lt (show y < 65536 by omega), u16_of_lt (show w < 65536 by omega),
      u16_of_lt (show h < 65536 by omega), u16_of_lt hcolor, hloop,
      u16i_pred x w hw (by omega), u16i_pred y h hh (by omega)]
  · intro cx cy h1 h2 h3 h4
    exact read_of_written p _ _ hg cx cy color
      ((row_major_mem x y w h _ (by omega) cx cy).mpr ⟨h1, h2, h3, h4⟩)
      (fun e he _ => hval e he)
  · intro cx cy hout
    have hn : (cx, cy) ∉ (row_major x y w (w * h) (fun _ => color)).map cell_addr :=
      fun hm => hout ((row_major_mem x y w h _ (by omega) cx cy).mp hm)
    exact ⟨hn, read_of_not_written p _ _ hg cx cy hn⟩

/-- Witness for C4: a 2x2 rectangle at (1,5), color 7, on a fresh panel. -/
theorem fill_rect_fills_witness :
    ∃ events,
      mk_st7789_fill_rect 5 1 5 2 2 7 = some events
      ∧ (Panel.fresh.run events).gram = [(1, 5, 7), (2, 5, 7), (1, 6, 7), (2, 6, 7)] := by
  obtain ⟨events, h1, -, -, h2, -⟩ :=
    fill_rect_fills Panel.fresh 5 1 5 2 2 7 (by decide) (by decide) (by decide) (by decide)
      (by decide) (by decide)
  exact ⟨events, h1, h2.trans (by decide)⟩

/-! ### Initialisation -/

/-- C5: `mk_st7789_init` makes exactly these primitive calls, in this order,
and returns 0: reset low, 100 ms, reset high, 100 ms, (backlight on,) command
0x01, 150 ms, command 0x11, 120 ms, command 0x3A with data byte 0x55, command
0x36 with data byte 0x80, the calls of `mk_st7789_set_window 0 239 0 239`,
command 0x13, (10 ms,) command 0x29, 120 ms.  The events of the claim, in the
claim's order, are a subsequence of this trace: all of it but the backlight
call and the 10 ms delay. -/
theorem init_trace :
    mk_st7789_init =
      ( [ Event.set_rst false, Event.delay_ms 100, Event.set_rst true, Event.delay_ms 100,
          Event.set_led true,
          Event.set_dc false, Event.set_cs false, Event.spi_write [0x01], Event.set_cs true,
          Event.delay_ms 150,
          Event.set_dc false, Event.set_cs false, Event.spi_write [0x11], Event.set_cs true,
          Event.delay_ms 120,
          Event.set_dc false, Event.set_cs false, Event.spi_write [0x3A], Event.set_cs true,
          Event.set_dc true, Event.set_cs false, Event.spi_write [0x55], Event.set_cs true,
          Event.set_dc false, Event.set_cs false, Event.spi_write [0x36], Event.set_cs true,
          Event.set_dc true, Event.set_cs false, Event.spi_write [0x80], Event.set_cs true ]
        ++ mk_st7789_set_window 0 239 0 239
        ++ [ Event.set_dc false, Event.set_cs false, Event.spi_write [0x13], Event.set_cs true,
             Event.delay_ms 10,
             Event.set_dc false, Event.set_cs false, Event.spi_write [0x29], Event.set_cs true,
             Event.delay_ms 120 ],
        0 )
    ∧ List.Sublist
        ( [Event.set_rst false, Event.delay_ms 100, Event.set_rst true, Event.delay_ms 100]
          ++ write_command 0x01 ++ [Event.delay_ms 150]
          ++ write_command 0x11 ++ [Event.delay_ms 120]
          ++ write_command 0x3A ++ write_data 0x55
          ++ write_command 0x36 ++ write_data 0x80
          ++ mk_st7789_set_window 0 239 0 239
          ++ write_command 0x13
          ++ write_command 0x29 ++ [Event.delay_ms 120] )
        mk_st7789_init.1 := by
  decide

/-- The mock panel after `mk_st7789_init`, from any state: lines, registers and
command latch are fixed by the sequence; write pointer and memory are
untouched. -/
theorem run_init (p : Panel) :
    p.run mk_st7789_init.1 =
      { p with
        rst := true, led := true, cs := true, dc := false,
        sleep_in := false, display_on := true, normal_on := true, invert_on := false,
        colmod := 0x55, madctl := 0x80, xs := 0, xe := 239, ys := 0, ye := 239,
        cmd := ST7789_DISPON, nparam := 0 } := by
  simp [Panel.run, mk_st7789_init, set_register, write_command, write_data, write_data16,
    Panel.step, Panel.receive, Panel.command, Panel.data, Panel.reset_regs, MADCTL_MY,
    ST7789_NOP, ST7789_CASET, ST7789_RASET, ST7789_SWRESET, ST7789_SLPIN,
    ST7789_SLPOUT, ST7789_NORON, ST7789_INVOFF, ST7789_INVON, ST7789_DISPOFF, ST7789_DISPON,
    ST7789_RAMWR, ST7789_COLMOD, ST7789_MADCTL, u8, u16]

/-- C6: from every state of the mock panel, running `mk_st7789_init` twice in
succession leaves the panel in the same state as running it once: the same
line levels (reset, backlight, chip-select, DC), the same registers (sleep,
display on, normal mode, inversion, color mode, memory-access control, column
and row window), and the same write pointer and memory. -/
theorem init_idempotent (p : Panel) :
    (p.run mk_st7789_init.1).run mk_st7789_init.1 = p.run mk_st7789_init.1 := by
  rw [run_init, run_init]

/-! ### The relay: each side on its own -/

theorem lcd_pixel_color_index (pixel_data : Nat) :
    (pixel_data >>> 4) &&& 3 < 4 ∧ pixel_data &&& 3 < 4 :=
  ⟨Nat.lt_succ_of_le Nat.and_le_right, Nat.lt_succ_of_le Nat.and_le_right⟩

theorem init_palette_shade (palette : palette_t) (m : Nat) (hm : m < 4) :
    init_palette palette ((m >>> 4) &&& 3) (m &&& 3) = [0xE7F3, 0xAD55, 0x52AA, 0x0000].getD m 0 := by
  interval_cases m <;> rfl

set_option maxRecDepth 100000 in
theorem init_palette_row (palette : palette_t) :
    (List.range 160).map
        (fun x => init_palette palette (((x % 4) >>> 4) &&& 3) ((x % 4) &&& 3))
      = (List.replicate 40 [0xE7F3, 0xAD55, 0x52AA, 0x0000]).flatten := by
  have h : (fun x => init_palette palette (((x % 4) >>> 4) &&& 3) ((x % 4) &&& 3))
      = (fun x => [0xE7F3, 0xAD55, 0x52AA, 0x0000].getD (x % 4) 0) := by
    funext x
    exact init_palette_shade palette (x % 4) (Nat.mod_lt _ (by decide))
  rw [h]
  decide

/-- C7: for every palette, every content of `pixels_buffer` and every
`line < 144`, `core1_lcd_draw_line` makes the calls of
`mk_st7789_set_window 40 199 (48+line) (48+line)` (a row inside the 240x240
panel), then those of `mk_st7789_write_pixels` on the 160 colors
`palette[(buf[x] >> 4) & 3][buf[x] & 3]`, `x = 0..159` (one command 0x2C and
one write of all 160 halfwords in one chip-select scope), and only then stores
0 to `lcd_line_busy`; both palette indices are below 4.  With the palette left
by `init_palette` and the buffer `0,1,2,3,0,1,2,3,...` the 160 colors are
`0xE7F3, 0xAD55, 0x52AA, 0x0000` forty times over. -/
theorem core1_lcd_draw_line_trace (palette : palette_t) (pixels_buffer : Nat → Nat) (line : Nat)
    (hline : line < LCD_HEIGHT) :
    core1_lcd_draw_line palette pixels_buffer line =
        (mk_st7789_set_window 40 199 (48 + line) (48 + line)
          ++ mk_st7789_write_pixels
              ((List.range 160).map
                (fun x => palette ((pixels_buffer x >>> 4) &&& 3) (pixels_buffer x &&& 3)))
              160).map Core1Op.bus
        ++ [Core1Op.store_busy 0]
    ∧ mk_st7789_write_pixels
          ((List.range 160).map
            (fun x => palette ((pixels_buffer x >>> 4) &&& 3) (pixels_buffer x &&& 3))) 160
        = [ Event.set_dc false, Event.set_cs false, Event.spi_write [0x2C], Event.set_cs true,
            Event.set_dc true, Event.set_cs false,
            Event.spi_write16 ((List.range 160).map
              (fun x => palette ((pixels_buffer x >>> 4) &&& 3) (pixels_buffer x &&& 3))),
            Event.set_cs true ]
    ∧ ((List.range 160).map
          (fun x => palette ((pixels_buffer x >>> 4) &&& 3) (pixels_buffer x &&& 3))).length = 160
    ∧ (∀ x, (pixels_buffer x >>> 4) &&& 3 < 4 ∧ pixels_buffer x &&& 3 < 4)
    ∧ (199 < SCREEN_SIZE_X ∧ 48 + line < SCREEN_SIZE_Y)
    ∧ core1_lcd_draw_line (init_palette palette) (fun x => x % 4) line =
        (mk_st7789_set_window 40 199 (48 + line) (48 + line)
          ++ mk_st7789_write_pixels
              (List.replicate 40 [0xE7F3, 0xAD55, 0x52AA, 0x0000]).flatten 160).map Core1Op.bus
        ++ [Core1Op.store_busy 0] := by
  simp only [LCD_HEIGHT, SCREEN_SIZE_X, SCREEN_SIZE_Y] at *
  have hgen : ∀ (pal : palette_t) (buf : Nat → Nat),
      core1_lcd_draw_line pal buf line =
        (mk_st7789_set_window 40 199 (48 + line) (48 + line)
          ++ mk_st7789_write_pixels
              ((List.range 160).map (fun x => pal ((buf x >>> 4) &&& 3) (buf x &&& 3)))
              160).map Core1Op.bus
        ++ [Core1Op.store_busy 0] := by
    intro pal buf
    simp [core1_lcd_draw_line, lcd_pixel_color, LCD_WIDTH, LCD_HEIGHT, SCREEN_SIZE_X,
      SCREEN_SIZE_Y, u16]
  refine ⟨hgen _ _, ?_, by simp, fun x => lcd_pixel_color_index _, ⟨by decide, by omega⟩, ?_⟩
  · have : List.take 160 ((List.range 160).map
        (fun x => palette ((pixels_buffer x >>> 4) &&& 3) (pixels_buffer x &&& 3)))
        = (List.range 160).map
        (fun x => palette ((pixels_buffer x >>> 4) &&& 3) (pixels_buffer x &&& 3)) := by
      apply List.take_of_length_le
      simp
    simp only [mk_st7789_write_pixels, this]
    simp [mk_st7789_write_pixels_start, mk_st7789_write_pixels_end, write_command,
      ST7789_RAMWR, u8]
  · rw [hgen, init_palette_row palette]

/-- Witness for C7: line 0, an all-zero palette and buffer. -/
theorem core1_lcd_draw_line_trace_witness :
    (0 : Nat) < LCD_HEIGHT
    ∧ core1_lcd_draw_line (fun _ _ => 0) (fun _ => 0) 0 =
        (mk_st7789_set_window 40 199 (48 + 0) (48 + 0)
          ++ mk_st7789_write_pixels
              ((List.range 160).map
                (fun x => (fun _ _ => 0 : palette_t) (((fun _ => 0 : Nat → Nat) x >>> 4) &&& 3)
                  ((fun _ => 0 : Nat → Nat) x &&& 3)))
              160).map Core1Op.bus
        ++ [Core1Op.store_busy 0] :=
  ⟨by decide, (core1_lcd_draw_line_trace (fun _ _ => 0) (fun _ => 0) 0 (by decide)).1⟩

theorem of_full_full (c : core_cmd) :
    core_cmd.of_full c.full =
      { cmd := u8 c.cmd, unused1 := u8 c.unused1, unused2 := u8 c.unused2, data := u8 c.data } := by
  unfold core_cmd.of_full core_cmd.full u8
  congr 1 <;> omega

theorem lcd_draw_line_spin (m : Shared) (pixels : Nat → Nat) (line : Nat) (cmd : core_cmd)
    (hbusy : m.lcd_line_busy ≠ 0) (fuel : Nat) :
    lcd_draw_line m pixels line cmd fuel = none := by
  induction fuel with
  | zero => rfl
  | succ f ih => simp [lcd_draw_line, hbusy, ih]

theorem core0_wait_stuck (s : Sys) (hpc : s.pc0 = PC0.wait) (hbusy : s.lcd_line_busy ≠ 0)
    (k : Nat) : run s (List.replicate k Sched.core0) = s := by
  induction k with
  | zero => rfl
  | succ k ih =>
    have h1 : step s Sched.core0 = s := by
      simp [step, core0_step, hpc, hbusy]
    rw [List.replicate_succ]
    simp only [run, List.foldl_cons, h1] at ih ⊢
    exact ih

/-- C8: `lcd_draw_line` entered with `lcd_line_busy` clear returns (for any
fuel of at least one loop test) with `pixels_buffer` equal to the 160 source
bytes, `lcd_line_busy` set to 1, and exactly one word appended to the FIFO;
whatever the two unused bytes of the uninitialised local hold, the struct view
of that word has tag `CORE_CMD_LCD_LINE` and data byte `line` (for
`line ≤ 255`), so the `switch` of `main_core1` runs `core1_lcd_draw_line(line)`.
Entered with the flag set, `lcd_draw_line` never leaves its busy loop: alone it
does not return, and in the two-core system core 0 stays at the loop, with
`pixels_buffer` untouched, for as many steps as it is given. -/
theorem lcd_draw_line_handoff (m : Shared) (pixels : Nat → Nat) (line : Nat) (cmd : core_cmd)
    (fuel : Nat) (hline : line < 256) :
    (m.lcd_line_busy = 0 →
      ∃ (m' : Shared) (full : Nat),
        lcd_draw_line m pixels line cmd (fuel + 1) = some m'
        ∧ (∀ k, k < LCD_WIDTH → m'.pixels_buffer k = pixels k)
        ∧ m'.lcd_line_busy = 1
        ∧ m'.fifo = m.fifo ++ [full]
        ∧ full = core_cmd.full
            { cmd := CORE_CMD_LCD_LINE, unused1 := cmd.unused1, unused2 := cmd.unused2,
              data := line }
        ∧ (core_cmd.of_full full).cmd = CORE_CMD_LCD_LINE
        ∧ (core_cmd.of_full full).data = line
        ∧ ∀ (palette : palette_t) (pixels_buffer : Nat → Nat),
            main_core1_dispatch palette pixels_buffer full
              = core1_lcd_draw_line palette pixels_buffer line)
    ∧ (m.lcd_line_busy ≠ 0 → lcd_draw_line m pixels line cmd fuel = none)
    ∧ (∀ (s : Sys) (k : Nat), s.pc0 = PC0.idle → s.lcd_line_busy ≠ 0 →
        (run (core0_call s pixels line cmd) (List.replicate k Sched.core0)).pc0 = PC0.wait
        ∧ (run (core0_call s pixels line cmd) (List.replicate k Sched.core0)).pixels_buffer
            = s.pixels_buffer) := by
  refine ⟨?_, fun hb => lcd_draw_line_spin m pixels line cmd hb fuel, ?_⟩
  · intro hb
    have hdec := of_full_full
      { cmd := CORE_CMD_LCD_LINE, unused1 := cmd.unused1, unused2 := cmd.unused2, data := line }
    have hl : u8 line = line := u8_of_lt hline
    have hc : u8 CORE_CMD_LCD_LINE = CORE_CMD_LCD_LINE := rfl
    refine ⟨{ pixels_buffer := memcpy m.pixels_buffer pixels LCD_WIDTH, lcd_line_busy := 1,
              fifo := m.fifo ++ [core_cmd.full
                { cmd := CORE_CMD_LCD_LINE, unused1 := cmd.unused1, unused2 := cmd.unused2,
                  data := line }] },
      _, ?_, ?_, rfl, rfl, rfl, ?_, ?_, ?_⟩
    · simp only [lcd_draw_line, hb, ne_eq, not_true_eq_false, if_false, hl, hc]
    · intro k hk
      simp [memcpy, hk]
    · rw [hdec]; exact hc
    · rw [hdec]; exact hl
    · intro palette pixels_buffer
      simp only [main_core1_dispatch, hdec, hl, hc, if_true]
  · intro s k hpc hb
    have hw : (core0_call s pixels line cmd).pc0 = PC0.wait := by simp [core0_call, hpc]
    have hb' : (core0_call s pixels line cmd).lcd_line_busy ≠ 0 := by
      simpa [core0_call, hpc] using hb
    rw [core0_wait_stuck _ hw hb' k]
    exact ⟨hw, by simp [core0_call, hpc]⟩

/-- Witness for C8: line 143 on an idle, empty channel, the unused bytes of the
local holding 77 and 200. -/
theorem lcd_draw_line_handoff_witness :
    (143 : Nat) < 256
    ∧ (lcd_draw_line { pixels_buffer := fun _ => 0, lcd_line_busy := 0, fifo := [] }
          (fun k => k % 4) 143 { cmd := 9, unused1 := 77, unused2 := 200, data := 9 } 1).isSome
        = true
    ∧ lcd_draw_line { pixels_buffer := fun _ => 0, lcd_line_busy := 1, fifo := [] }
          (fun k => k % 4) 143 { cmd := 9, unused1 := 77, unused2 := 200, data := 9 } 0 = none := by
  have h := lcd_draw_line_handoff { pixels_buffer := fun _ => 0, lcd_line_busy := 0, fifo := [] }
    (fun k => k % 4) 143 { cmd := 9, unused1 := 77, unused2 := 200, data := 9 } 0 (by decide)
  have h2 := lcd_draw_line_handoff { pixels_buffer := fun _ => 0, lcd_line_busy := 1, fifo := [] }
    (fun k => k % 4) 143 { cmd := 9, unused1 := 77, unused2 := 200, data := 9 } 0 (by decide)
  obtain ⟨m', full, hsome, -⟩ := h.1 rfl
  exact ⟨by decide, by rw [hsome]; rfl, h2.2.1 (by decide)⟩

/-! ### The relay: both cores together -/

theorem inv_start (palette : palette_t) : Inv (Sys.start palette) where
  busy_le := by simp [Sys.start]
  pending := by simp [Sys.start]
  quiet := by intro _; simp [Sys.start, PC1.drawing, sent]
  copying := by simp [Sys.start]
  storing := by simp [Sys.start]
  pushing := by simp [Sys.start]
  flying := by simp [Sys.start]

theorem inv_call (s : Sys) (pixels : Nat → Nat) (line : Nat) (cmd : core_cmd) (h : Inv s) :
    Inv (core0_call s pixels line cmd) := by
  unfold core0_call
  by_cases hi : s.pc0 = PC0.idle
  · rw [if_pos hi]
    have hsent : ∀ t : Sys, t.pc0 = PC0.wait → t.submitted = s.submitted ++ [(line, pixels)] →
        sent t = sent s := by
      intro t h1 h2
      simp [sent, hi, h1, h2]
    refine ⟨h.busy_le, fun _ => ⟨s.submitted, rfl⟩, ?_, ?_, ?_, ?_, ?_⟩
    · intro hb
      obtain ⟨h1, h2, -, h4⟩ := h.quiet hb
      exact ⟨h1, h2, by simp, by rw [hsent _ rfl rfl]; exact h4⟩
    · intro hc; simp at hc
    · intro hc; simp at hc
    · intro hc; simp at hc
    · intro hb _
      obtain ⟨init, r, h1, h2, h3⟩ := h.flying hb (by simp [hi])
      exact ⟨init, r, by rw [hsent _ rfl rfl]; exact h1, h2, h3⟩
  · rw [if_neg hi]; exact h

theorem sent_congr (t s : Sys) (h1 : t.pc0 = PC0.idle ↔ s.pc0 = PC0.idle)
    (h2 : t.submitted = s.submitted) : sent t = sent s := by
  unfold sent
  rw [h2]
  by_cases h : s.pc0 = PC0.idle
  · rw [if_pos h, if_pos (h1.mpr h)]
  · rw [if_neg h, if_neg (fun c => h (h1.mp c))]

theorem busy_of_drawing (s : Sys) (h : Inv s) (hd : s.pc1.drawing = true) :
    s.lcd_line_busy = 1 ∧ s.pc0 ≠ PC0.push := by
  have hle := h.busy_le
  constructor
  · by_contra hne
    have h0 : s.lcd_line_busy = 0 := by omega
    have := (h.quiet h0).2.1
    rw [hd] at this
    cases this
  · intro hp
    have := (h.pushing hp).2.2.1
    rw [hd] at this
    cases this

theorem inv_core0 (s : Sys) (h : Inv s) : Inv (core0_step s) := by
  unfold core0_step
  cases hpc : s.pc0 with
  | idle => simpa using h
  | wait =>
    simp only []
    by_cases hb : s.lcd_line_busy ≠ 0
    · rw [if_pos hb]; exact h
    · rw [if_neg hb]
      have hb0 : s.lcd_line_busy = 0 := by omega
      refine ⟨h.busy_le, fun _ => h.pending (by simp [hpc]), ?_, ?_, ?_, ?_, ?_⟩
      · intro hb'
        obtain ⟨a, b, -, d⟩ := h.quiet hb'
        exact ⟨a, b, by simp, by refine d.trans ?_; congr 1; symm; apply sent_congr <;> simp [hpc]⟩
      · intro _
        exact ⟨hb0, Nat.zero_le _, fun k hk => absurd hk (Nat.not_lt_zero k)⟩
      · intro hc; cases hc
      · intro hc; cases hc
      · intro hb1 _
        exact absurd hb1 (by simp [hb0])
  | copy =>
    simp only []
    obtain ⟨hb0, hn, hcopy⟩ := h.copying hpc
    by_cases hlt : s.n < LCD_WIDTH
    · rw [if_pos hlt]
      refine ⟨h.busy_le, fun _ => h.pending (by simp [hpc]), ?_, ?_, ?_, ?_, ?_⟩
      · intro hb'
        obtain ⟨a, b, -, d⟩ := h.quiet hb'
        exact ⟨a, b, by simp [hpc], by refine d.trans ?_; congr 1; symm; apply sent_congr <;> simp [hpc]⟩
      · intro _
        refine ⟨hb0, hlt, ?_⟩
        intro k hk
        show array_set s.pixels_buffer s.n (s.pixels s.n) k = s.pixels k
        unfold array_set
        by_cases hkn : k = s.n
        · rw [if_pos hkn, hkn]
        · rw [if_neg hkn]
          exact hcopy k (by
            have : k < s.n + 1 := hk
            omega)
      · intro hc; cases hc
      · intro hc; cases hc
      · intro hb1 _
        exact absurd hb1 (by simp [hb0])
    · rw [if_neg hlt]
      have hfull : ∀ k, k < LCD_WIDTH → s.pixels_buffer k = s.pixels k :=
        fun k hk => hcopy k (by omega)
      refine ⟨h.busy_le, fun _ => h.pending (by simp [hpc]), ?_, ?_, ?_, ?_, ?_⟩
      · intro hb'
        obtain ⟨a, b, -, d⟩ := h.quiet hb'
        exact ⟨a, b, by simp, by refine d.trans ?_; congr 1; symm; apply sent_congr <;> simp [hpc]⟩
      · intro hc; cases hc
      · intro _
        exact ⟨hb0, hfull, rfl, rfl⟩
      · intro hc; cases hc
      · intro hb1 _
        exact absurd hb1 (by simp [hb0])
  | store =>
    simp only []
    obtain ⟨hb0, hfull, hc1, hc2⟩ := h.storing hpc
    obtain ⟨a, b, -, d⟩ := h.quiet hb0
    refine ⟨Nat.le_refl 1, fun _ => h.pending (by simp [hpc]), ?_, ?_, ?_, ?_, ?_⟩
    · intro hb'; cases hb'
    · intro hc; cases hc
    · intro hc; cases hc
    · intro _
      exact ⟨rfl, a, b, hfull, hc1, hc2,
        by refine d.trans ?_; congr 1; symm; apply sent_congr <;> simp [hpc]⟩
    · intro _ hne
      exact absurd rfl hne
  | push =>
    simp only []
    obtain ⟨hb1, hf, hd, hfull, hc1, hc2, hst⟩ := h.pushing hpc
    obtain ⟨init, hsub⟩ := h.pending (by simp [hpc])
    have hsent_old : sent s = init := by simp [sent, hpc, hsub]
    refine ⟨h.busy_le, fun hne => absurd rfl hne, ?_, ?_, ?_, ?_, ?_⟩
    · intro hb'
      exact absurd hb' (by simp [hb1])
    · intro hc; cases hc
    · intro hc; cases hc
    · intro hc; cases hc
    · intro _ _
      refine ⟨init, (s.line, s.pixels), by simp [sent, hsub], hfull, ?_⟩
      have hdec := of_full_full s.cmd
      have hflight : (∃ full, s.fifo ++ [s.cmd.full] = [full]
            ∧ (core_cmd.of_full full).cmd = CORE_CMD_LCD_LINE
            ∧ (core_cmd.of_full full).data = u8 s.line)
          ∧ s.streamed = init.map (shown s.palette) := by
        refine ⟨⟨s.cmd.full, by simp [hf], ?_, ?_⟩, by rw [hst, hsent_old]⟩
        · rw [hdec, hc1]; rfl
        · rw [hdec, hc2]; simp [u8]
      unfold Flight
      cases hp1 : s.pc1 with
      | boot => simpa [hp1] using hflight
      | pop => simpa [hp1] using hflight
      | convert => rw [hp1] at hd; cases hd
      | window => rw [hp1] at hd; cases hd
      | pixels => rw [hp1] at hd; cases hd
      | free => rw [hp1] at hd; cases hd

theorem inv_core1_from (boot : Option (List Event)) (s : Sys) (h : Inv s) :
    Inv (core1_step_from boot s) := by
  unfold core1_step_from
  cases hp1 : s.pc1 with
  | boot =>
    simp only []
    cases boot with
    | none => exact h
    | some es =>
      simp only []
      refine ⟨h.busy_le, h.pending, ?_, h.copying, h.storing, ?_, ?_⟩
      · intro hb
        obtain ⟨a, -, c, d⟩ := h.quiet hb
        exact ⟨a, rfl, c, d⟩
      · intro hc
        obtain ⟨a, b, -, d⟩ := h.pushing hc
        exact ⟨a, b, rfl, d⟩
      · intro hb hne
        obtain ⟨init, r, h1, h2, h3⟩ := h.flying hb hne
        refine ⟨init, r, h1, h2, ?_⟩
        simp only [Flight, hp1] at h3 ⊢
        exact h3
  | pop =>
    simp only []
    cases hf : s.fifo with
    | nil => exact h
    | cons full rest =>
      simp only []
      have hle := h.busy_le
      have hb1 : s.lcd_line_busy = 1 := by
        by_contra hne
        have h0 : s.lcd_line_busy = 0 := by omega
        have := (h.quiet h0).1
        rw [hf] at this
        cases this
      have hnp : s.pc0 ≠ PC0.push := by
        intro hp
        have := (h.pushing hp).2.1
        rw [hf] at this
        cases this
      obtain ⟨init, r, h1, h2, h3⟩ := h.flying hb1 hnp
      simp only [Flight, hp1] at h3
      obtain ⟨⟨full', hff, hcmd, hdata⟩, hst⟩ := h3
      rw [hf] at hff
      obtain ⟨rfl, rfl⟩ : full = full' ∧ rest = [] := by simpa using hff
      rw [if_pos hcmd]
      refine ⟨h.busy_le, h.pending, ?_, ?_, ?_, ?_, ?_⟩
      · intro hb
        exact absurd (hb1.symm.trans hb) (by decide)
      · intro hc
        exact absurd (hb1.symm.trans (h.copying hc).1) (by decide)
      · intro hc
        exact absurd (hb1.symm.trans (h.storing hc).1) (by decide)
      · intro hc
        exact absurd hc hnp
      · intro _ _
        refine ⟨init, r, h1, h2, ?_⟩
        simp only [Flight]
        exact ⟨trivial, hdata, Nat.zero_le _, fun k hk => absurd hk (Nat.not_lt_zero _), hst⟩
  | convert =>
    simp only []
    obtain ⟨hb1, hnp⟩ := busy_of_drawing s h (by rw [hp1]; rfl)
    obtain ⟨init, r, h1, h2, h3⟩ := h.flying hb1 hnp
    simp only [Flight, hp1] at h3
    obtain ⟨hf, hl, hx, hfb, hst⟩ := h3
    by_cases hlt : s.x < LCD_WIDTH
    · rw [if_pos hlt]
      refine ⟨h.busy_le, h.pending, ?_, h.copying, h.storing, ?_, ?_⟩
      · intro hb
        exact absurd (hb1.symm.trans hb) (by decide)
      · intro hc
        exact absurd hc hnp
      · intro _ _
        refine ⟨init, r, h1, h2, ?_⟩
        simp only [Flight]
        refine ⟨hf, hl, hlt, ?_, hst⟩
        intro k hk
        unfold array_set
        by_cases hkx : k = s.x
        · rw [if_pos hkx, hkx, h2 s.x hlt]
        · rw [if_neg hkx]
          exact hfb k (by omega)
    · rw [if_neg hlt]
      refine ⟨h.busy_le, h.pending, ?_, h.copying, h.storing, ?_, ?_⟩
      · intro hb
        exact absurd (hb1.symm.trans hb) (by decide)
      · intro hc
        exact absurd hc hnp
      · intro _ _
        refine ⟨init, r, h1, h2, ?_⟩
        simp only [Flight]
        exact ⟨hf, hl, fun k hk => hfb k (by omega), hst⟩
  | window =>
    simp only []
    obtain ⟨hb1, hnp⟩ := busy_of_drawing s h (by rw [hp1]; rfl)
    obtain ⟨init, r, h1, h2, h3⟩ := h.flying hb1 hnp
    simp only [Flight, hp1] at h3
    refine ⟨h.busy_le, h.pending, ?_, h.copying, h.storing, ?_, ?_⟩
    · intro hb
      exact absurd (hb1.symm.trans hb) (by decide)
    · intro hc
      exact absurd hc hnp
    · intro _ _
      refine ⟨init, r, h1, h2, ?_⟩
      simp only [Flight]
      exact h3
  | pixels =>
    simp only []
    obtain ⟨hb1, hnp⟩ := busy_of_drawing s h (by rw [hp1]; rfl)
    obtain ⟨init, r, h1, h2, h3⟩ := h.flying hb1 hnp
    simp only [Flight, hp1] at h3
    obtain ⟨hf, hl, hfb, hst⟩ := h3
    refine ⟨h.busy_le, h.pending, ?_, h.copying, h.storing, ?_, ?_⟩
    · intro hb
      exact absurd (hb1.symm.trans hb) (by decide)
    · intro hc
      exact absurd hc hnp
    · intro _ _
      refine ⟨init, r, h1, h2, ?_⟩
      simp only [Flight]
      refine ⟨hf, ?_⟩
      have hrow : (s.line1, (List.range LCD_WIDTH).map s.fb) = shown s.palette r := by
        unfold shown
        rw [hl]
        congr 1
        apply List.map_congr_left
        intro k hk
        exact hfb k (List.mem_range.mp hk)
      rw [hst, hrow, List.map_append]
      rfl
  | free =>
    simp only []
    obtain ⟨hb1, hnp⟩ := busy_of_drawing s h (by rw [hp1]; rfl)
    obtain ⟨init, r, h1, h2, h3⟩ := h.flying hb1 hnp
    simp only [Flight, hp1] at h3
    obtain ⟨hf, hst⟩ := h3
    refine ⟨Nat.zero_le _, h.pending, ?_, ?_, ?_, ?_, ?_⟩
    · intro _
      refine ⟨hf, rfl, hnp, ?_⟩
      rw [← h1] at hst
      exact hst
    · intro hc
      exact absurd (hb1.symm.trans (h.copying hc).1) (by decide)
    · intro hc
      exact absurd (hb1.symm.trans (h.storing hc).1) (by decide)
    · intro hc
      exact absurd hc hnp
    · intro hb
      cases hb

theorem inv_core1 (s : Sys) (h : Inv s) : Inv (core1_step s) :=
  inv_core1_from _ s h

theorem inv_step (s : Sys) (l : Sched) (h : Inv s) : Inv (step s l) := by
  cases l with
  | call pixels line cmd => exact inv_call s pixels line cmd h
  | core0 => exact inv_core0 s h
  | core1 => exact inv_core1 s h

theorem inv_run (sched : List Sched) : ∀ s : Sys, Inv s → Inv (run s sched) := by
  induction sched with
  | nil => intro s h; exact h
  | cons l rest ih => intro s h; exact ih (step s l) (inv_step s l h)

theorem inv_of_reachable (s : Sys) (h : Reachable s) : Inv s := by
  obtain ⟨palette, sched, rfl⟩ := h
  exact inv_run sched _ (inv_start palette)

theorem in_flight_cases (s : Sys) (h : Inv s) :
    (s.lcd_line_busy = 0 ∧ s.pc0 ≠ PC0.push ∧ in_flight s = 0)
    ∨ (s.lcd_line_busy = 1 ∧ s.pc0 = PC0.push ∧ in_flight s = 0)
    ∨ (s.lcd_line_busy = 1 ∧ s.pc0 ≠ PC0.push ∧ in_flight s = 1) := by
  have hle := h.busy_le
  by_cases hb0 : s.lcd_line_busy = 0
  · obtain ⟨hf, hd, hnp, -⟩ := h.quiet hb0
    exact Or.inl ⟨hb0, hnp, by simp [in_flight, hf, hd]⟩
  · have hb1 : s.lcd_line_busy = 1 := by omega
    by_cases hp : s.pc0 = PC0.push
    · obtain ⟨-, hf, hd, -⟩ := h.pushing hp
      exact Or.inr (Or.inl ⟨hb1, hp, by simp [in_flight, hf, hd]⟩)
    · obtain ⟨init, r, -, -, h3⟩ := h.flying hb1 hp
      refine Or.inr (Or.inr ⟨hb1, hp, ?_⟩)
      unfold Flight at h3
      cases hp1 : s.pc1 with
      | boot =>
        simp only [hp1] at h3
        obtain ⟨⟨full, hf, hc, -⟩, -⟩ := h3
        simp [in_flight, hf, hc, hp1, PC1.drawing]
      | pop =>
        simp only [hp1] at h3
        obtain ⟨⟨full, hf, hc, -⟩, -⟩ := h3
        simp [in_flight, hf, hc, hp1, PC1.drawing]
      | convert =>
        simp only [hp1] at h3
        simp [in_flight, h3.1, hp1, PC1.drawing]
      | window =>
        simp only [hp1] at h3
        simp [in_flight, h3.1, hp1, PC1.drawing]
      | pixels =>
        simp only [hp1] at h3
        simp [in_flight, h3.1, hp1, PC1.drawing]
      | free =>
        simp only [hp1] at h3
        simp [in_flight, h3.1, hp1, PC1.drawing]

set_option maxRecDepth 100000 in
theorem handoff_gap_pc0 : handoff_gap_state.pc0 = PC0.push := by decide

set_option maxRecDepth 100000 in
theorem handoff_gap_busy : handoff_gap_state.lcd_line_busy = 1 := by decide

set_option maxRecDepth 100000 in
theorem handoff_gap_in_flight : in_flight handoff_gap_state = 0 := by decide

/-- C9, as stated, fails in a reachable state: after core 0 has stored 1 to
`lcd_line_busy` and before it has pushed the command word, the flag is set and
no draw-line command is between its FIFO push and the store of 0 that ends
`core1_lcd_draw_line`. -/
theorem busy_iff_in_flight_counterexample :
    Reachable handoff_gap_state
    ∧ handoff_gap_state.pc0 = PC0.push
    ∧ handoff_gap_state.lcd_line_busy = 1
    ∧ in_flight handoff_gap_state = 0
    ∧ ¬ (handoff_gap_state.lcd_line_busy ≠ 0 ↔ in_flight handoff_gap_state = 1) := by
  refine ⟨⟨_, _, rfl⟩, handoff_gap_pc0, handoff_gap_busy, handoff_gap_in_flight, ?_⟩
  rw [handoff_gap_busy, handoff_gap_in_flight]
  decide

/-- C9, amended: in every reachable state `lcd_line_busy` is set if and only if
either core 0 stands between its store of 1 to the flag and the FIFO push that
follows it, or exactly one draw-line command is between its FIFO push and the
store of 0 that ends `core1_lcd_draw_line`.  The two cases exclude each other,
never more than one command is in flight, and the flag is set whenever core 1
is inside `core1_lcd_draw_line` (reading the shared buffer, streaming the row,
or about to clear the flag). -/
theorem busy_iff_pushing_or_in_flight (s : Sys) (h : Reachable s) :
    (s.lcd_line_busy ≠ 0 ↔ (s.pc0 = PC0.push ∨ in_flight s = 1))
    ∧ (s.pc0 = PC0.push → in_flight s = 0)
    ∧ in_flight s ≤ 1
    ∧ (s.pc1.drawing = true → s.lcd_line_busy ≠ 0) := by
  have hinv := inv_of_reachable s h
  have hd : s.pc1.drawing = true → s.lcd_line_busy ≠ 0 := by
    intro hdr
    rw [(busy_of_drawing s hinv hdr).1]
    decide
  rcases in_flight_cases s hinv with ⟨a, b, c⟩ | ⟨a, b, c⟩ | ⟨a, b, c⟩
  · refine ⟨?_, fun hp => absurd hp b, by omega, hd⟩
    rw [a, c]
    simp [b]
  · refine ⟨?_, fun _ => c, by omega, hd⟩
    rw [a, c]
    simp [b]
  · refine ⟨?_, fun hp => absurd hp b, by omega, hd⟩
    rw [a, c]
    simp

/-- Witness for the amended C9, at the state between the store and the push. -/
theorem busy_iff_pushing_or_in_flight_witness :
    Reachable handoff_gap_state
    ∧ (handoff_gap_state.lcd_line_busy ≠ 0
        ↔ (handoff_gap_state.pc0 = PC0.push ∨ in_flight handoff_gap_state = 1)) :=
  ⟨⟨_, _, rfl⟩, (busy_iff_pushing_or_in_flight handoff_gap_state ⟨_, _, rfl⟩).1⟩

theorem sent_initial (s : Sys) :
    sent s <+: s.submitted ∧ s.submitted.length ≤ (sent s).length + 1 := by
  unfold sent
  by_cases hi : s.pc0 = PC0.idle
  · rw [if_pos hi]
    exact ⟨List.prefix_refl _, Nat.le_succ _⟩
  · rw [if_neg hi]
    refine ⟨List.dropLast_prefix _, ?_⟩
    rw [List.length_dropLast]
    omega

theorem streamed_initial (s : Sys) (h : Inv s) :
    ∃ done, done <+: s.submitted ∧ s.submitted.length ≤ done.length + 2
      ∧ s.streamed = done.map (shown s.palette) := by
  obtain ⟨hp, hlen⟩ := sent_initial s
  have hle := h.busy_le
  have hall : s.streamed = (sent s).map (shown s.palette) →
      ∃ done, done <+: s.submitted ∧ s.submitted.length ≤ done.length + 2
        ∧ s.streamed = done.map (shown s.palette) :=
    fun hst => ⟨sent s, hp, by omega, hst⟩
  by_cases hb0 : s.lcd_line_busy = 0
  · exact hall (h.quiet hb0).2.2.2
  · have hb1 : s.lcd_line_busy = 1 := by omega
    by_cases hpush : s.pc0 = PC0.push
    · exact hall (h.pushing hpush).2.2.2.2.2.2
    · obtain ⟨init, r, h1, -, h3⟩ := h.flying hb1 hpush
      have hinit : init <+: s.submitted := by
        refine List.IsPrefix.trans ?_ hp
        rw [h1]
        exact List.prefix_append _ _
      have hlen2 : s.submitted.length ≤ init.length + 2 := by
        have : (sent s).length = init.length + 1 := by rw [h1]; simp
        omega
      unfold Flight at h3
      cases hp1 : s.pc1 with
      | boot => simp only [hp1] at h3; exact ⟨init, hinit, hlen2, h3.2⟩
      | pop => simp only [hp1] at h3; exact ⟨init, hinit, hlen2, h3.2⟩
      | convert => simp only [hp1] at h3; exact ⟨init, hinit, hlen2, h3.2.2.2.2⟩
      | window => simp only [hp1] at h3; exact ⟨init, hinit, hlen2, h3.2.2.2⟩
      | pixels => simp only [hp1] at h3; exact ⟨init, hinit, hlen2, h3.2.2.2⟩
      | free =>
        simp only [hp1] at h3
        exact hall (by rw [h1]; exact h3.2)

theorem fifo_le_one (s : Sys) (h : Inv s) : s.fifo.length ≤ 1 := by
  have hle := h.busy_le
  by_cases hb0 : s.lcd_line_busy = 0
  · rw [(h.quiet hb0).1]; exact Nat.zero_le _
  · have hb1 : s.lcd_line_busy = 1 := by omega
    by_cases hpush : s.pc0 = PC0.push
    · rw [(h.pushing hpush).2.1]; exact Nat.zero_le _
    · obtain ⟨init, r, -, -, h3⟩ := h.flying hb1 hpush
      unfold Flight at h3
      cases hp1 : s.pc1 with
      | boot => simp only [hp1] at h3; obtain ⟨⟨full, hf, -⟩, -⟩ := h3; rw [hf]; exact Nat.le_refl _
      | pop => simp only [hp1] at h3; obtain ⟨⟨full, hf, -⟩, -⟩ := h3; rw [hf]; exact Nat.le_refl _
      | convert => simp only [hp1] at h3; rw [h3.1]; exact Nat.zero_le _
      | window => simp only [hp1] at h3; rw [h3.1]; exact Nat.zero_le _
      | pixels => simp only [hp1] at h3; rw [h3.1]; exact Nat.zero_le _
      | free => simp only [hp1] at h3; rw [h3.1]; exact Nat.zero_le _

theorem fill_rect_some (fuel x y w h color : Nat) (hw : w < 65536) (hh : h < 65536)
    (hn : w * h ≤ 65535) (hfuel : w * h < fuel) :
    ∃ es, mk_st7789_fill_rect fuel x y w h color = some es := by
  unfold mk_st7789_fill_rect
  simp only [u16_of_lt hw, u16_of_lt hh]
  rw [fill_rect_loop_some w h (u16 color) hn (w * h) 0 fuel (by omega) hfuel]
  exact ⟨_, rfl⟩

theorem fill_some : ∃ es, mk_st7789_fill 65537 0x0000 = some es :=
  fill_rect_some 65537 0 0 SCREEN_SIZE_X SCREEN_SIZE_Y 0x0000
    (by decide) (by decide) (by decide) (by decide)

theorem fill_region_some :
    ∃ es, mk_st7789_fill_rect 65537 (u16 ((SCREEN_SIZE_X - LCD_WIDTH) / 2))
      (u16 ((SCREEN_SIZE_Y - LCD_HEIGHT) / 2)) LCD_WIDTH LCD_HEIGHT 0x0000 = some es :=
  fill_rect_some 65537 _ _ LCD_WIDTH LCD_HEIGHT 0x0000
    (by decide) (by decide) (by decide) (by decide)

/-- The part of `main_core1` before its loop returns: both fills are of fewer
than 65536 pixels. -/
theorem main_core1_boot_some : ∃ es, main_core1_boot 65537 = some es := by
  obtain ⟨a, ha⟩ := fill_some
  obtain ⟨b, hb⟩ := fill_region_some
  refine ⟨mk_st7789_init.1 ++ a ++ b, ?_⟩
  unfold main_core1_boot
  rw [ha, hb]
  rfl

theorem core1_step_boot (s : Sys) (hp1 : s.pc1 = PC1.boot) :
    ∃ es, core1_step s = { s with bus := s.bus ++ es, pc1 := PC1.pop } := by
  obtain ⟨es, hes⟩ := main_core1_boot_some
  refine ⟨es, ?_⟩
  unfold core1_step
  rw [hes]
  unfold core1_step_from
  rw [hp1]

theorem work_decreases (s : Sys) (h : Inv s) (hw : 0 < work s) :
    work (step s (drain_step s)) < work s
      ∧ (step s (drain_step s)).submitted = s.submitted
      ∧ (step s (drain_step s)).palette = s.palette := by
  unfold drain_step
  by_cases hc : s.pc1 = PC1.pop ∧ s.fifo = []
  · rw [if_pos hc]
    obtain ⟨hp1, hf⟩ := hc
    cases hpc : s.pc0 with
    | idle => simp [work, hpc, hp1, hf] at hw
    | wait =>
      have hb0 : s.lcd_line_busy = 0 := by
        rcases in_flight_cases s h with ⟨a, -, -⟩ | ⟨-, b, -⟩ | ⟨-, -, c⟩
        · exact a
        · rw [hpc] at b; cases b
        · simp [in_flight, hf, hp1, PC1.drawing] at c
      simp [step, core0_step, work, hpc, hb0, hp1, hf, LCD_WIDTH]
    | copy =>
      by_cases hlt : s.n < LCD_WIDTH
      · simp only [step, core0_step, hpc, if_pos hlt, work, hp1, hf]
        simp only [LCD_WIDTH] at hlt ⊢
        refine ⟨by omega, trivial, trivial⟩
      · simp only [step, core0_step, hpc, if_neg hlt, work, hp1, hf]
        simp only [LCD_WIDTH] at hlt ⊢
        refine ⟨by omega, trivial, trivial⟩
    | store => simp [step, core0_step, work, hpc, hp1, hf, LCD_WIDTH]
    | push => simp [step, core0_step, work, hpc, hp1, hf, LCD_WIDTH]
  · rw [if_neg hc]
    cases hp1 : s.pc1 with
    | boot =>
      obtain ⟨es, hes⟩ := core1_step_boot s hp1
      simp only [step, hes, work, hp1]
      refine ⟨by omega, trivial, trivial⟩
    | pop =>
      cases hf : s.fifo with
      | nil => exact absurd ⟨hp1, hf⟩ hc
      | cons full rest =>
        by_cases hc1 : (core_cmd.of_full full).cmd = CORE_CMD_LCD_LINE
        · simp only [step, core1_step, core1_step_from, hp1, hf, work, if_pos hc1,
            List.length_cons, LCD_WIDTH]
          refine ⟨by omega, trivial, trivial⟩
        · by_cases hc2 : (core_cmd.of_full full).cmd = CORE_CMD_IDLE_SET
          · simp only [step, core1_step, core1_step_from, hp1, hf, work, if_neg hc1, if_pos hc2,
              List.length_cons, LCD_WIDTH]
            refine ⟨by omega, trivial, trivial⟩
          · simp only [step, core1_step, core1_step_from, hp1, hf, work, if_neg hc1, if_neg hc2,
              List.length_cons, LCD_WIDTH]
            refine ⟨by omega, trivial, trivial⟩
    | convert =>
      by_cases hlt : s.x < LCD_WIDTH
      · simp only [step, core1_step, core1_step_from, hp1, if_pos hlt, work]
        simp only [LCD_WIDTH] at hlt ⊢
        refine ⟨by omega, trivial, trivial⟩
      · simp only [step, core1_step, core1_step_from, hp1, if_neg hlt, work]
        simp only [LCD_WIDTH] at hlt ⊢
        refine ⟨by omega, trivial, trivial⟩
    | window =>
      simp only [step, core1_step, core1_step_from, hp1, work]
      refine ⟨by omega, trivial, trivial⟩
    | pixels =>
      simp only [step, core1_step, core1_step_from, hp1, work]
      refine ⟨by omega, trivial, trivial⟩
    | free =>
      simp only [step, core1_step, core1_step_from, hp1, work]
      refine ⟨by omega, trivial, trivial⟩

theorem drains (n : Nat) :
    ∀ s : Sys, Inv s → work s ≤ n →
      ∃ sched, work (run s sched) = 0 ∧ (run s sched).submitted = s.submitted
        ∧ (run s sched).palette = s.palette := by
  induction n with
  | zero =>
    intro s _ hw
    exact ⟨[], by simpa [run] using hw, rfl, rfl⟩
  | succ n ih =>
    intro s h hw
    by_cases h0 : work s = 0
    · exact ⟨[], by simpa [run] using h0, rfl, rfl⟩
    · obtain ⟨hlt, hsub, hpal⟩ := work_decreases s h (by omega)
      obtain ⟨sched, e1, e2, e3⟩ := ih (step s (drain_step s)) (inv_step s _ h) (by omega)
      refine ⟨drain_step s :: sched, ?_, ?_, ?_⟩
      · simpa [run] using e1
      · rw [← hsub, ← e2]; rfl
      · rw [← hpal, ← e3]; rfl

theorem streamed_of_no_work (s : Sys) (h : Inv s) (hw : work s = 0) :
    s.pc0 = PC0.idle ∧ s.lcd_line_busy = 0 ∧ s.streamed = s.submitted.map (shown s.palette) := by
  have hpc : s.pc0 = PC0.idle := by
    cases hpc : s.pc0 <;> simp [work, hpc, LCD_WIDTH] at hw
    rfl
  have hp1 : s.pc1 = PC1.pop := by
    cases hp1 : s.pc1 <;> simp [work, hp1, hpc, LCD_WIDTH] at hw
    rfl
  have hf : s.fifo = [] := by
    simp [work, hp1, hpc, LCD_WIDTH] at hw
    exact hw
  have hb0 : s.lcd_line_busy = 0 := by
    rcases in_flight_cases s h with ⟨a, -, -⟩ | ⟨-, b, -⟩ | ⟨-, -, c⟩
    · exact a
    · rw [hpc] at b; cases b
    · simp [in_flight, hf, hp1, PC1.drawing] at c
  refine ⟨hpc, hb0, ?_⟩
  rw [(h.quiet hb0).2.2.2]
  simp [sent, hpc]

/-- C10: in every state the two cores can reach, under any schedule and for
any sequence of calls of `lcd_draw_line`: the `(line, colors)` pairs core 1 has
streamed are, in order and without repetition or gap, those of an initial
segment of the submitted rows (at most two rows are outstanding: one in
flight, one waiting in the busy loop), each with the line number submitted
(as the 8-bit data byte carries it) and the palette colors of the 160 pixels
submitted; once core 0 is out of `lcd_draw_line` and the flag is clear, every
submitted row has been streamed.  While core 0 is inside `memcpy`, core 1 is
outside `core1_lcd_draw_line` and the FIFO is empty; while core 1 is inside
`core1_lcd_draw_line`, core 0 is outside `lcd_draw_line` or in its busy loop;
the FIFO never holds more than one word.  No row is lost: from every reachable
state the cores, left to run without further calls, reach a state in which
every submitted row has been streamed. -/
theorem relay_in_order (s : Sys) (h : Reachable s) :
    (∃ done, done <+: s.submitted ∧ s.submitted.length ≤ done.length + 2
        ∧ s.streamed = done.map (shown s.palette))
    ∧ (s.pc0 = PC0.idle → s.lcd_line_busy = 0 →
        s.streamed = s.submitted.map (shown s.palette))
    ∧ (s.pc0 = PC0.copy → s.pc1.drawing = false ∧ s.fifo = [])
    ∧ (s.pc1.drawing = true → s.pc0 = PC0.idle ∨ s.pc0 = PC0.wait)
    ∧ s.fifo.length ≤ 1
    ∧ (∃ sched, (run s sched).submitted = s.submitted
        ∧ (run s sched).streamed = s.submitted.map (shown s.palette)) := by
  have hinv := inv_of_reachable s h
  refine ⟨streamed_initial s hinv, ?_, ?_, ?_, fifo_le_one s hinv, ?_⟩
  rotate_right
  · obtain ⟨sched, e1, e2, e3⟩ := drains (work s) s hinv (Nat.le_refl _)
    have hdone := (streamed_of_no_work (run s sched) (inv_run sched s hinv) e1).2.2
    rw [e2, e3] at hdone
    exact ⟨sched, e2, hdone⟩
  · intro hi hb
    have := (hinv.quiet hb).2.2.2
    rw [this]
    simp [sent, hi]
  · intro hc
    obtain ⟨hf, hd, -⟩ := hinv.quiet (hinv.copying hc).1
    exact ⟨hd, hf⟩
  · intro hd
    obtain ⟨hb1, hnp⟩ := busy_of_drawing s hinv hd
    cases hpc : s.pc0 with
    | idle => exact Or.inl rfl
    | wait => exact Or.inr rfl
    | copy => exact absurd (hb1.symm.trans (hinv.copying hpc).1) (by decide)
    | store => exact absurd (hb1.symm.trans (hinv.storing hpc).1) (by decide)
    | push => exact absurd hpc hnp

/-- Witness for C10: the state right after the first complete call of
`lcd_draw_line`. -/
theorem relay_in_order_witness :
    Reachable handoff_sent_state
    ∧ handoff_sent_state.fifo.length ≤ 1
    ∧ (∃ sched, (run handoff_sent_state sched).submitted = handoff_sent_state.submitted
        ∧ (run handoff_sent_state sched).streamed
            = handoff_sent_state.submitted.map (shown handoff_sent_state.palette)) :=
  ⟨⟨_, _, rfl⟩,
    (relay_in_order handoff_sent_state ⟨_, _, rfl⟩).2.2.2.2.1,
    (relay_in_order handoff_sent_state ⟨_, _, rfl⟩).2.2.2.2.2⟩

/-! ### The step machine against the functions

Each core, left to run alone through one row, does what the function it
embeds does. -/

theorem sys_run_append (s : Sys) (a b : List Sched) : run s (a ++ b) = run (run s a) b := by
  simp [run, List.foldl_append]

theorem core0_copy_run (j : Nat) :
    ∀ s : Sys, s.pc0 = PC0.copy → s.n + j = LCD_WIDTH →
      run s (List.replicate j Sched.core0) =
        { s with
          pixels_buffer := fun k =>
            if s.n ≤ k ∧ k < LCD_WIDTH then s.pixels k else s.pixels_buffer k,
          n := LCD_WIDTH } := by
  induction j with
  | zero =>
    intro s _ hn
    have hn' : s.n = LCD_WIDTH := by omega
    have hbuf : (fun k => if s.n ≤ k ∧ k < LCD_WIDTH then s.pixels k else s.pixels_buffer k)
        = s.pixels_buffer := by
      funext k
      have : ¬ (s.n ≤ k ∧ k < LCD_WIDTH) := by omega
      rw [if_neg this]
    rw [hbuf, ← hn']
    rfl
  | succ j ih =>
    intro s hpc hn
    have hlt : s.n < LCD_WIDTH := by omega
    have hstep : step s Sched.core0 =
        { s with pixels_buffer := array_set s.pixels_buffer s.n (s.pixels s.n), n := s.n + 1 } := by
      simp only [step, core0_step, hpc, if_pos hlt]
    rw [List.replicate_succ]
    show run (step s Sched.core0) (List.replicate j Sched.core0) = _
    have hrest := ih (step s Sched.core0) (by rw [hstep]; exact hpc)
      (by rw [hstep]; show s.n + 1 + j = LCD_WIDTH; omega)
    rw [hrest, hstep]
    have hbuf : (fun k => if s.n + 1 ≤ k ∧ k < LCD_WIDTH then s.pixels k
          else array_set s.pixels_buffer s.n (s.pixels s.n) k)
        = (fun k => if s.n ≤ k ∧ k < LCD_WIDTH then s.pixels k else s.pixels_buffer k) := by
      funext k
      unfold array_set
      by_cases hk : k = s.n
      · have h1 : ¬ (s.n + 1 ≤ k ∧ k < LCD_WIDTH) := by omega
        have h2 : s.n ≤ k ∧ k < LCD_WIDTH := by omega
        rw [if_neg h1, if_pos hk, if_pos h2, hk]
      · by_cases h2 : s.n ≤ k ∧ k < LCD_WIDTH
        · have h1 : s.n + 1 ≤ k ∧ k < LCD_WIDTH := by omega
          rw [if_pos h1, if_pos h2]
        · have h1 : ¬ (s.n + 1 ≤ k ∧ k < LCD_WIDTH) := by omega
          rw [if_neg h1, if_neg h2, if_neg hk]
    show Sys.mk _ _ _ _ _ _ _ _ _ _ _ _ _ _ _ _ _ = Sys.mk _ _ _ _ _ _ _ _ _ _ _ _ _ _ _ _ _
    rw [hbuf]

theorem core0_finish (c : Sys) (hw : c.pc0 = PC0.wait) (hb : c.lcd_line_busy = 0) :
    run c (List.replicate (LCD_WIDTH + 4) Sched.core0) =
      { c with
        pixels_buffer := fun k => if 0 ≤ k ∧ k < LCD_WIDTH then c.pixels k else c.pixels_buffer k,
        n := LCD_WIDTH,
        cmd := { c.cmd with cmd := u8 CORE_CMD_LCD_LINE, data := u8 c.line },
        lcd_line_busy := 1,
        fifo := c.fifo ++ [core_cmd.full
          { c.cmd with cmd := u8 CORE_CMD_LCD_LINE, data := u8 c.line }],
        pc0 := PC0.idle } := by
  have hcount : LCD_WIDTH + 4 = 1 + LCD_WIDTH + 3 := by decide
  rw [hcount, List.replicate_add, List.replicate_add, sys_run_append, sys_run_append]
  have h1 : run c (List.replicate 1 Sched.core0) = { c with pc0 := PC0.copy, n := 0 } := by
    simp [run, step, core0_step, hw, hb]
  rw [h1, core0_copy_run LCD_WIDTH _ rfl (by simp)]
  simp [run, step, core0_step, List.replicate, LCD_WIDTH]

/-- Core 0 alone, from outside `lcd_draw_line` with the flag clear: one call
and `LCD_WIDTH + 4` statements later it is outside again, and the shared
memory and FIFO are what `lcd_draw_line` returns. -/
theorem core0_run_eq_lcd_draw_line (s : Sys) (pixels : Nat → Nat) (line : Nat) (cmd : core_cmd)
    (hi : s.pc0 = PC0.idle) (hb : s.lcd_line_busy = 0) :
    (run (core0_call s pixels line cmd) (List.replicate (LCD_WIDTH + 4) Sched.core0)).pc0
        = PC0.idle
    ∧ ∃ m, lcd_draw_line
          { pixels_buffer := s.pixels_buffer, lcd_line_busy := s.lcd_line_busy, fifo := s.fifo }
          pixels line cmd 1 = some m
        ∧ (∀ k, (run (core0_call s pixels line cmd)
            (List.replicate (LCD_WIDTH + 4) Sched.core0)).pixels_buffer k = m.pixels_buffer k)
        ∧ (run (core0_call s pixels line cmd)
            (List.replicate (LCD_WIDTH + 4) Sched.core0)).lcd_line_busy = m.lcd_line_busy
        ∧ (run (core0_call s pixels line cmd)
            (List.replicate (LCD_WIDTH + 4) Sched.core0)).fifo = m.fifo := by
  have hw : (core0_call s pixels line cmd).pc0 = PC0.wait := by simp [core0_call, hi]
  have hb' : (core0_call s pixels line cmd).lcd_line_busy = 0 := by simp [core0_call, hi, hb]
  rw [core0_finish _ hw hb']
  refine ⟨rfl,
    { pixels_buffer := memcpy s.pixels_buffer pixels LCD_WIDTH, lcd_line_busy := 1,
      fifo := s.fifo ++ [core_cmd.full
        { cmd := u8 CORE_CMD_LCD_LINE, unused1 := cmd.unused1, unused2 := cmd.unused2,
          data := u8 line }] }, ?_, ?_, ?_, ?_⟩
  · simp only [lcd_draw_line, hb, ne_eq, not_true_eq_false, if_false]
  · intro k
    simp [core0_call, hi, memcpy]
  · rfl
  · simp [core0_call, hi]

theorem core1_convert_run (j : Nat) :
    ∀ s : Sys, s.pc1 = PC1.convert → s.x + j = LCD_WIDTH →
      run s (List.replicate j Sched.core1) =
        { s with
          fb := fun k =>
            if s.x ≤ k ∧ k < LCD_WIDTH then lcd_pixel_color s.palette (s.pixels_buffer k)
            else s.fb k,
          x := LCD_WIDTH } := by
  induction j with
  | zero =>
    intro s _ hx
    have hx' : s.x = LCD_WIDTH := by omega
    have hfb : (fun k => if s.x ≤ k ∧ k < LCD_WIDTH
          then lcd_pixel_color s.palette (s.pixels_buffer k) else s.fb k) = s.fb := by
      funext k
      have : ¬ (s.x ≤ k ∧ k < LCD_WIDTH) := by omega
      rw [if_neg this]
    rw [hfb, ← hx']
    rfl
  | succ j ih =>
    intro s hpc hx
    have hlt : s.x < LCD_WIDTH := by omega
    have hstep : step s Sched.core1 =
        { s with
          fb := array_set s.fb s.x (lcd_pixel_color s.palette (s.pixels_buffer s.x)),
          x := s.x + 1 } := by
      simp only [step, core1_step, core1_step_from, hpc, if_pos hlt]
    rw [List.replicate_succ]
    show run (step s Sched.core1) (List.replicate j Sched.core1) = _
    have hrest := ih (step s Sched.core1) (by rw [hstep]; exact hpc)
      (by rw [hstep]; show s.x + 1 + j = LCD_WIDTH; omega)
    rw [hrest, hstep]
    have hfb : (fun k => if s.x + 1 ≤ k ∧ k < LCD_WIDTH
          then lcd_pixel_color s.palette (s.pixels_buffer k)
          else array_set s.fb s.x (lcd_pixel_color s.palette (s.pixels_buffer s.x)) k)
        = (fun k => if s.x ≤ k ∧ k < LCD_WIDTH
          then lcd_pixel_color s.palette (s.pixels_buffer k) else s.fb k) := by
      funext k
      unfold array_set
      by_cases hk : k = s.x
      · have h1 : ¬ (s.x + 1 ≤ k ∧ k < LCD_WIDTH) := by omega
        have h2 : s.x ≤ k ∧ k < LCD_WIDTH := by omega
        rw [if_neg h1, if_pos hk, if_pos h2, hk]
      · by_cases h2 : s.x ≤ k ∧ k < LCD_WIDTH
        · have h1 : s.x + 1 ≤ k ∧ k < LCD_WIDTH := by omega
          rw [if_pos h1, if_pos h2]
        · have h1 : ¬ (s.x + 1 ≤ k ∧ k < LCD_WIDTH) := by omega
          rw [if_neg h1, if_neg h2, if_neg hk]
    show Sys.mk _ _ _ _ _ _ _ _ _ _ _ _ _ _ _ _ _ = Sys.mk _ _ _ _ _ _ _ _ _ _ _ _ _ _ _ _ _
    rw [hfb]

/-- Core 1 alone, at the pop with a draw-line word at the head of the FIFO:
`LCD_WIDTH + 5` statements later it is back at the pop, having put on the bus
the primitive calls of `main_core1_dispatch` on that word, and having stored
to `lcd_line_busy` what `main_core1_dispatch` stores last. -/
theorem core1_run_eq_dispatch (c : Sys) (full : Nat) (rest : List Nat)
    (hp : c.pc1 = PC1.pop) (hf : c.fifo = full :: rest)
    (hcmd : (core_cmd.of_full full).cmd = CORE_CMD_LCD_LINE) :
    (run c (List.replicate (LCD_WIDTH + 5) Sched.core1)).pc1 = PC1.pop
    ∧ (run c (List.replicate (LCD_WIDTH + 5) Sched.core1)).fifo = rest
    ∧ ∃ events,
        (run c (List.replicate (LCD_WIDTH + 5) Sched.core1)).bus = c.bus ++ events
        ∧ main_core1_dispatch c.palette c.pixels_buffer full
            = events.map Core1Op.bus
              ++ [Core1Op.store_busy
                    (run c (List.replicate (LCD_WIDTH + 5) Sched.core1)).lcd_line_busy] := by
  have hcount : LCD_WIDTH + 5 = 1 + LCD_WIDTH + 4 := by decide
  rw [hcount, List.replicate_add, List.replicate_add, sys_run_append, sys_run_append]
  have h1 : run c (List.replicate 1 Sched.core1)
      = { c with fifo := rest, cmd1 := core_cmd.of_full full,
                 line1 := (core_cmd.of_full full).data, x := 0, pc1 := PC1.convert } := by
    simp only [List.replicate, run, List.foldl_cons, List.foldl_nil, step, core1_step,
      core1_step_from, hp, hf, if_pos hcmd]
  rw [h1, core1_convert_run LCD_WIDTH _ rfl (by simp)]
  have hfb : (List.range LCD_WIDTH).map
        (fun k => if 0 ≤ k ∧ k < LCD_WIDTH then lcd_pixel_color c.palette (c.pixels_buffer k)
          else c.fb k)
      = (List.range LCD_WIDTH).map (fun x => lcd_pixel_color c.palette (c.pixels_buffer x)) := by
    apply List.map_congr_left
    intro k hk
    have : 0 ≤ k ∧ k < LCD_WIDTH := ⟨Nat.zero_le _, List.mem_range.mp hk⟩
    rw [if_pos this]
  have hlt : ¬ (LCD_WIDTH < LCD_WIDTH) := Nat.lt_irrefl _
  simp only [List.replicate, run, List.foldl_cons, List.foldl_nil, step, core1_step,
    core1_step_from, hlt, if_false, hfb]
  refine ⟨trivial, trivial,
    mk_st7789_set_window (u16 ((SCREEN_SIZE_X - LCD_WIDTH) / 2))
        (u16 ((SCREEN_SIZE_X - LCD_WIDTH) / 2) + LCD_WIDTH - 1)
        (u16 ((SCREEN_SIZE_Y - LCD_HEIGHT) / 2) + (core_cmd.of_full full).data)
        (u16 ((SCREEN_SIZE_Y - LCD_HEIGHT) / 2) + (core_cmd.of_full full).data)
      ++ mk_st7789_write_pixels
        ((List.range LCD_WIDTH).map (fun x => lcd_pixel_color c.palette (c.pixels_buffer x)))
        LCD_WIDTH,
    List.append_assoc _ _ _, ?_⟩
  simp only [main_core1_dispatch, hcmd, if_true, core1_lcd_draw_line]

/-! ### Window bounds are not checked -/

/-- C11, as stated, fails: `mk_st7789_set_window 5 3 0 0` (columns inverted)
returns after sending 5 and 3 as the column bounds, and the mock panel's
column window becomes 5..3. -/
theorem set_window_inverted_counterexample :
    mk_st7789_set_window 5 3 0 0 =
      [ Event.set_dc false, Event.set_cs false, Event.spi_write [0x2A], Event.set_cs true,
        Event.set_dc true, Event.set_cs false, Event.spi_write16 [5], Event.set_cs true,
        Event.set_dc true, Event.set_cs false, Event.spi_write16 [3], Event.set_cs true,
        Event.set_dc false, Event.set_cs false, Event.spi_write [0x2B], Event.set_cs true,
        Event.set_dc true, Event.set_cs false, Event.spi_write16 [0], Event.set_cs true,
        Event.set_dc true, Event.set_cs false, Event.spi_write16 [0], Event.set_cs true ]
    ∧ (Panel.fresh.run (mk_st7789_set_window 5 3 0 0)).xs = 5
    ∧ (Panel.fresh.run (mk_st7789_set_window 5 3 0 0)).xe = 3 := by
  decide

/-- C11, amended: `mk_st7789_set_window` does not look at the order of its
bounds.  For all 16-bit bounds with `hor_start > hor_end` or
`vert_start > vert_end` it makes the same calls as for ordered bounds, the four
bounds sent as given, and returns; the mock panel's window registers then hold
the inverted bounds. -/
theorem set_window_unchecked (p : Panel) (hor_start hor_end vert_start vert_end : Nat)
    (h1 : hor_start < 65536) (h2 : hor_end < 65536)
    (h3 : vert_start < 65536) (h4 : vert_end < 65536)
    (_hinv : hor_start > hor_end ∨ vert_start > vert_end) :
    mk_st7789_set_window hor_start hor_end vert_start vert_end =
      write_command 0x2A
        ++ [Event.set_dc true, Event.set_cs false, Event.spi_write16 [hor_start],
            Event.set_cs true]
        ++ [Event.set_dc true, Event.set_cs false, Event.spi_write16 [hor_end],
            Event.set_cs true]
        ++ write_command 0x2B
        ++ [Event.set_dc true, Event.set_cs false, Event.spi_write16 [vert_start],
            Event.set_cs true]
        ++ [Event.set_dc true, Event.set_cs false, Event.spi_write16 [vert_end],
            Event.set_cs true]
    ∧ (p.run (mk_st7789_set_window hor_start hor_end vert_start vert_end)).xs = hor_start
    ∧ (p.run (mk_st7789_set_window hor_start hor_end vert_start vert_end)).xe = hor_end
    ∧ (p.run (mk_st7789_set_window hor_start hor_end vert_start vert_end)).ys = vert_start
    ∧ (p.run (mk_st7789_set_window hor_start hor_end vert_start vert_end)).ye = vert_end := by
  refine ⟨?_, ?_⟩
  · simp [mk_st7789_set_window, write_data16, ST7789_CASET, ST7789_RASET,
      u16_of_lt h1, u16_of_lt h2, u16_of_lt h3, u16_of_lt h4]
  · rw [run_set_window p _ _ _ _ h1 h2 h3 h4]
    exact ⟨rfl, rfl, rfl, rfl⟩

/-- Witness for the amended C11: rows inverted, 200 down to 100. -/
theorem set_window_unchecked_witness :
    (Panel.fresh.run (mk_st7789_set_window 0 239 200 100)).ys = 200
    ∧ (Panel.fresh.run (mk_st7789_set_window 0 239 200 100)).ye = 100 :=
  ⟨(set_window_unchecked Panel.fresh 0 239 200 100 (by decide) (by decide) (by decide)
      (by decide) (Or.inr (by decide))).2.2.2.1,
    (set_window_unchecked Panel.fresh 0 239 200 100 (by decide) (by decide) (by decide)
      (by decide) (Or.inr (by decide))).2.2.2.2⟩

/-! ### Commands the loop of `main_core1` does not act on -/

theorem of_full_tag (cmd unused1 unused2 data : Nat) (h : cmd < 256) :
    (core_cmd.of_full (core_cmd.full
      { cmd := cmd, unused1 := unused1, unused2 := unused2, data := data })).cmd = cmd
    ∧ (core_cmd.of_full (core_cmd.full
      { cmd := cmd, unused1 := unused1, unused2 := unused2, data := data })).data = u8 data := by
  rw [of_full_full]
  exact ⟨u8_of_lt h, rfl⟩

/-- C12, the code at a command word with tag `CORE_CMD_SET_PIXEL`: for every
payload and whatever the unused bytes hold, the `switch` of `main_core1` takes
its `default` branch, so nothing is put on the bus and nothing is stored; in
the step machine core 1 pops the word and stays at the pop with bus and flag
unchanged; so it is for the word 0x2A000003 (tag 3, data byte 0x2A).  A
single-pixel write (`mk_st7789_pixel`) is never an empty trace.  A word with
tag `CORE_CMD_NOP` is treated the same way. -/
theorem set_pixel_not_dispatched (palette : palette_t) (pixels_buffer : Nat → Nat)
    (unused1 unused2 data : Nat) :
    main_core1_dispatch palette pixels_buffer (core_cmd.full
        { cmd := CORE_CMD_SET_PIXEL, unused1 := unused1, unused2 := unused2, data := data }) = []
    ∧ main_core1_dispatch palette pixels_buffer (core_cmd.full
        { cmd := CORE_CMD_NOP, unused1 := unused1, unused2 := unused2, data := data }) = []
    ∧ ((core_cmd.of_full 0x2A000003).cmd = CORE_CMD_SET_PIXEL
        ∧ (core_cmd.of_full 0x2A000003).data = 0x2A
        ∧ main_core1_dispatch palette pixels_buffer 0x2A000003 = [])
    ∧ (∀ x y color, mk_st7789_pixel x y color ≠ [])
    ∧ (∀ (s : Sys) (rest : List Nat) (tag : Nat), s.pc1 = PC1.pop →
        tag = CORE_CMD_SET_PIXEL ∨ tag = CORE_CMD_NOP →
        s.fifo = core_cmd.full
          { cmd := tag, unused1 := unused1, unused2 := unused2, data := data } :: rest →
        (core1_step s).bus = s.bus
        ∧ (core1_step s).lcd_line_busy = s.lcd_line_busy
        ∧ (core1_step s).pixels_buffer = s.pixels_buffer
        ∧ (core1_step s).streamed = s.streamed
        ∧ (core1_step s).fifo = rest
        ∧ (core1_step s).pc1 = PC1.pop) := by
  have h3 := of_full_tag CORE_CMD_SET_PIXEL unused1 unused2 data (by decide)
  have h0 := of_full_tag CORE_CMD_NOP unused1 unused2 data (by decide)
  refine ⟨?_, ?_, ⟨by decide, by decide, rfl⟩, ?_, ?_⟩
  · simp only [main_core1_dispatch, h3.1]
    rfl
  · simp only [main_core1_dispatch, h0.1]
    rfl
  · intro x y color
    simp [mk_st7789_pixel, mk_st7789_set_address, write_command]
  · intro s rest tag hp htag hf
    rcases htag with rfl | rfl
    · simp only [core1_step, core1_step_from, hp, hf, h3.1]
      exact ⟨rfl, rfl, rfl, rfl, rfl, rfl⟩
    · simp only [core1_step, core1_step_from, hp, hf, h0.1]
      exact ⟨rfl, rfl, rfl, rfl, rfl, rfl⟩

/-! ### Power, inversion and idle mode -/

/-- C13: `mk_st7789_power_control(false)` makes exactly the calls of command
0x11 followed by a 120 ms delay, the delay being its last call;
`mk_st7789_power_control(true)` makes exactly the calls of command 0x10;
`mk_st7789_invert_display` makes exactly the calls of one command, 0x21 for
`true` and 0x20 for `false`. -/
theorem power_and_invert_traces :
    mk_st7789_power_control false =
      [ Event.set_dc false, Event.set_cs false, Event.spi_write [0x11], Event.set_cs true,
        Event.delay_ms 120 ]
    ∧ mk_st7789_power_control true =
      [ Event.set_dc false, Event.set_cs false, Event.spi_write [0x10], Event.set_cs true ]
    ∧ mk_st7789_invert_display true =
      [ Event.set_dc false, Event.set_cs false, Event.spi_write [0x21], Event.set_cs true ]
    ∧ mk_st7789_invert_display false =
      [ Event.set_dc false, Event.set_cs false, Event.spi_write [0x20], Event.set_cs true ] := by
  decide

/-- C15: for every mode byte (and whatever the unused bytes hold) the `switch`
of `main_core1` on a word with tag `CORE_CMD_IDLE_SET` makes exactly the calls
of command 0x21 and stores nothing; `mk_st7789_display_control` makes the same
calls for any two color modes, those of `mk_st7789_invert_display`.  In the
step machine core 1 pops the word, appends those four calls to the bus and
stays at the pop with the flag unchanged. -/
theorem idle_set_ignores_mode (palette : palette_t) (pixels_buffer : Nat → Nat)
    (unused1 unused2 mode : Nat) (invert : Bool) (m1 m2 : Nat) :
    main_core1_dispatch palette pixels_buffer (core_cmd.full
        { cmd := CORE_CMD_IDLE_SET, unused1 := unused1, unused2 := unused2, data := mode })
      = [ Core1Op.bus (Event.set_dc false), Core1Op.bus (Event.set_cs false),
          Core1Op.bus (Event.spi_write [0x21]), Core1Op.bus (Event.set_cs true) ]
    ∧ mk_st7789_display_control true mode =
      [ Event.set_dc false, Event.set_cs false, Event.spi_write [0x21], Event.set_cs true ]
    ∧ mk_st7789_display_control invert m1 = mk_st7789_display_control invert m2
    ∧ mk_st7789_display_control invert m1 = mk_st7789_invert_display invert
    ∧ (∀ (s : Sys) (rest : List Nat), s.pc1 = PC1.pop →
        s.fifo = core_cmd.full
          { cmd := CORE_CMD_IDLE_SET, unused1 := unused1, unused2 := unused2, data := mode }
            :: rest →
        (core1_step s).bus = s.bus
          ++ [ Event.set_dc false, Event.set_cs false, Event.spi_write [0x21],
               Event.set_cs true ]
        ∧ (core1_step s).lcd_line_busy = s.lcd_line_busy
        ∧ (core1_step s).fifo = rest
        ∧ (core1_step s).pc1 = PC1.pop) := by
  have h2 := of_full_tag CORE_CMD_IDLE_SET unused1 unused2 mode (by decide)
  have htrace : ∀ m, mk_st7789_display_control true m =
      [ Event.set_dc false, Event.set_cs false, Event.spi_write [0x21], Event.set_cs true ] :=
    fun _ => rfl
  refine ⟨?_, htrace mode, rfl, rfl, ?_⟩
  · simp only [main_core1_dispatch, h2.1, htrace]
    rfl
  · intro s rest hp hf
    simp only [core1_step, core1_step_from, hp, hf, h2.1, htrace]
    exact ⟨rfl, rfl, rfl, rfl⟩

/-! ### Termination of the fill loop -/

theorem fill_rect_loop_none (w h color : Nat) (hn : 65536 ≤ w * h) :
    ∀ (fuel i : Nat), i < 65536 → fill_rect_loop w h color fuel i = none := by
  intro fuel
  induction fuel with
  | zero => intro i _; rfl
  | succ f ih =>
    intro i hi
    have hlt : i < w * h := by omega
    have hnext : u16 (i + 1) < 65536 := Nat.mod_lt _ (by decide)
    simp [fill_rect_loop, hlt, ih (u16 (i + 1)) hnext]

theorem fill_rect_trace (fuel x y w h color : Nat) (hw : w < 65536) (hh : h < 65536)
    (hn : w * h ≤ 65535) (hfuel : w * h < fuel) :
    mk_st7789_fill_rect fuel x y w h color =
      some (mk_st7789_set_window (u16 x) (u16i (((u16 x : Nat) : Int) + (w : Int) - 1))
              (u16 y) (u16i (((u16 y : Nat) : Int) + (h : Int) - 1))
            ++ mk_st7789_write_pixels_start
            ++ List.replicate (w * h) (Event.spi_write16 [u16 color])
            ++ mk_st7789_write_pixels_end) := by
  unfold mk_st7789_fill_rect
  simp only [u16_of_lt hw, u16_of_lt hh]
  rw [fill_rect_loop_some w h (u16 color) hn (w * h) 0 fuel (by omega) hfuel]
  rfl

theorem fill_rect_diverges (fuel x y w h color : Nat) (hw : w < 65536) (hh : h < 65536)
    (hn : 65536 ≤ w * h) :
    mk_st7789_fill_rect fuel x y w h color = none := by
  unfold mk_st7789_fill_rect
  simp only [u16_of_lt hw, u16_of_lt hh]
  rw [fill_rect_loop_none w h (u16 color) hn fuel 0 (by decide)]
  rfl

/-- C14: for 16-bit `w`, `h` (their product fitting an `int`),
`mk_st7789_fill_rect` returns if and only if `w*h ≤ 65535`.  When
`w*h ≤ 65535` it returns, for any fuel above `w*h`, after exactly `w*h`
one-halfword writes between `mk_st7789_write_pixels_start` and
`mk_st7789_write_pixels_end`; when `w*h ≥ 65536` it returns for no fuel at all:
the 16-bit counter wraps from 65535 to 0 and stays below the bound.
`mk_st7789_fill` returns after exactly 57600 one-halfword writes of `color`,
the window set to columns 0..239, rows 0..239. -/
theorem fill_rect_terminates_iff (x y w h color : Nat) (hw : w < 65536) (hh : h < 65536)
    (_hint : w * h < 2147483648) :
    ((∃ fuel, (mk_st7789_fill_rect fuel x y w h color).isSome = true) ↔ w * h ≤ 65535)
    ∧ (w * h ≤ 65535 → ∀ fuel, w * h < fuel →
        mk_st7789_fill_rect fuel x y w h color =
          some (mk_st7789_set_window (u16 x) (u16i (((u16 x : Nat) : Int) + (w : Int) - 1))
                  (u16 y) (u16i (((u16 y : Nat) : Int) + (h : Int) - 1))
                ++ mk_st7789_write_pixels_start
                ++ List.replicate (w * h) (Event.spi_write16 [u16 color])
                ++ mk_st7789_write_pixels_end))
    ∧ (65536 ≤ w * h → ∀ fuel, mk_st7789_fill_rect fuel x y w h color = none)
    ∧ u16 (65535 + 1) = 0
    ∧ (∀ fuel, 57600 < fuel →
        mk_st7789_fill fuel color =
          some (mk_st7789_set_window 0 239 0 239
                ++ mk_st7789_write_pixels_start
                ++ List.replicate 57600 (Event.spi_write16 [u16 color])
                ++ mk_st7789_write_pixels_end)) := by
  refine ⟨?_, ?_, ?_, by decide, ?_⟩
  · constructor
    · rintro ⟨fuel, hsome⟩
      by_contra hbig
      rw [fill_rect_diverges fuel x y w h color hw hh (by omega)] at hsome
      cases hsome
    · intro hsmall
      exact ⟨w * h + 1,
        by rw [fill_rect_trace (w * h + 1) x y w h color hw hh hsmall (Nat.lt_succ_self _)]; rfl⟩
  · intro hsmall fuel hfuel
    exact fill_rect_trace fuel x y w h color hw hh hsmall hfuel
  · intro hbig fuel
    exact fill_rect_diverges fuel x y w h color hw hh hbig
  · intro fuel hfuel
    have hprod : SCREEN_SIZE_X * SCREEN_SIZE_Y = 57600 := by decide
    have htrace := fill_rect_trace fuel 0 0 SCREEN_SIZE_X SCREEN_SIZE_Y color
      (by decide) (by decide) (by decide) (by rw [hprod]; exact hfuel)
    rw [hprod] at htrace
    have hb : u16i (((u16 0 : Nat) : Int) + (SCREEN_SIZE_X : Int) - 1) = 239 := by decide
    have hd : u16i (((u16 0 : Nat) : Int) + (SCREEN_SIZE_Y : Int) - 1) = 239 := by decide
    have h0 : u16 0 = 0 := by decide
    rw [hb, hd, h0] at htrace
    exact htrace

/-- Witness for C14: a 2x2 fill returns, a 256x256 fill does not. -/
theorem fill_rect_terminates_iff_witness :
    (∃ fuel, (mk_st7789_fill_rect fuel 0 0 2 2 7).isSome = true)
    ∧ mk_st7789_fill_rect 100000 0 0 256 256 7 = none :=
  ⟨(fill_rect_terminates_iff 0 0 2 2 7 (by decide) (by decide) (by decide)).1.mpr (by decide),
    (fill_rect_terminates_iff 0 0 256 256 7 (by decide) (by decide) (by decide)).2.2.1
      (by decide) 100000⟩

/-! ### Text -/

set_option maxRecDepth 100000 in
theorem font_8x8_eq : font_8x8 = List.replicate 128 (List.replicate 8 0) := by
  decide

theorem getD_replicate_zero (n row : Nat) : (List.replicate n 0).getD row 0 = 0 := by
  simp only [List.getD_eq_getElem?_getD, List.getElem?_replicate]
  split <;> rfl

theorem font_8x8_zero (i row : Nat) : (font_8x8.getD i []).getD row 0 = 0 := by
  rw [font_8x8_eq]
  have h1 : (List.replicate 128 (List.replicate 8 0)).getD i [] = List.replicate 8 0
      ∨ (List.replicate 128 (List.replicate 8 0)).getD i [] = [] := by
    simp only [List.getD_eq_getElem?_getD, List.getElem?_replicate]
    split
    · exact Or.inl rfl
    · exact Or.inr rfl
  rcases h1 with h | h
  · rw [h]; exact getD_replicate_zero 8 row
  · rw [h]; rfl

theorem get_letter_index_le (letter : Int) : mk_st7789_get_letter_index letter ≤ 94 := by
  unfold mk_st7789_get_letter_index
  simp only []
  split <;> omega

theorem fold_array_set (v base n : Nat) (f : Nat → Nat) :
    (List.range n).foldl (fun fb i => array_set fb (base + i) v) f
      = fun k => if base ≤ k ∧ k < base + n then v else f k := by
  induction n with
  | zero =>
    funext k
    have : ¬ (base ≤ k ∧ k < base + 0) := by omega
    rw [if_neg this]
    rfl
  | succ n ih =>
    rw [List.range_succ, List.foldl_append, ih]
    funext k
    simp only [List.foldl_cons, List.foldl_nil, array_set]
    by_cases hk : k = base + n
    · have : base ≤ k ∧ k < base + (n + 1) := by omega
      rw [if_pos hk, if_pos this]
    · rw [if_neg hk]
      by_cases h1 : base ≤ k ∧ k < base + n
      · have : base ≤ k ∧ k < base + (n + 1) := by omega
        rw [if_pos h1, if_pos this]
      · have : ¬ (base ≤ k ∧ k < base + (n + 1)) := by omega
        rw [if_neg h1, if_neg this]

theorem fold_row_blocks (v m : Nat) (f : Nat → Nat) :
    (List.range m).foldl
        (fun fb row => fun k => if row * 8 ≤ k ∧ k < row * 8 + 8 then v else fb k) f
      = fun k => if k < m * 8 then v else f k := by
  induction m with
  | zero =>
    funext k
    have : ¬ k < 0 * 8 := by omega
    rw [if_neg this]
    rfl
  | succ m ih =>
    rw [List.range_succ, List.foldl_append, ih]
    simp only [List.foldl_cons, List.foldl_nil]
    funext k
    by_cases h1 : m * 8 ≤ k ∧ k < m * 8 + 8
    · have : k < (m + 1) * 8 := by omega
      rw [if_pos h1, if_pos this]
    · rw [if_neg h1]
      by_cases h2 : k < m * 8
      · have : k < (m + 1) * 8 := by omega
        rw [if_pos h2, if_pos this]
      · have : ¬ k < (m + 1) * 8 := by omega
        rw [if_neg h2, if_neg this]

theorem fold_rows (v m : Nat) (f : Nat → Nat) :
    (List.range m).foldl
        (fun fb row => (List.range 8).foldl (fun fb col => array_set fb (row * 8 + col) v) fb) f
      = fun k => if k < m * 8 then v else f k := by
  simp only [fold_array_set]
  exact fold_row_blocks v m f

/-- `mk_st7789_get_letter` leaves `bgcolor` in entries 0..63 and nothing else
changed. -/
theorem get_letter_eq (fbuf : Nat → Nat) (letter : Int) (color bgcolor : Nat) :
    mk_st7789_get_letter fbuf letter color bgcolor
      = fun k => if k < 64 then u16 bgcolor else fbuf k := by
  unfold mk_st7789_get_letter
  simp only [font_8x8_zero, Nat.zero_shiftRight, Nat.zero_and, ne_eq, not_true_eq_false,
    decide_False, Bool.false_eq_true, if_false]
  rw [fold_rows (u16 bgcolor) 8 fbuf]

theorem get_letter_cell (fbuf : Nat → Nat) (letter : Int) (color bgcolor : Nat) :
    (List.range 64).map (mk_st7789_get_letter fbuf letter color bgcolor)
      = List.replicate 64 (u16 bgcolor) := by
  rw [get_letter_eq, List.eq_replicate_iff]
  refine ⟨by simp, ?_⟩
  intro b hb
  obtain ⟨k, hk, rfl⟩ := List.mem_map.mp hb
  simp [List.mem_range.mp hk]

theorem text_loop_eq (char_buf : Nat → Nat) (x color bgcolor : Nat) (s : List Int) :
    ∀ current_x current_y,
      mk_st7789_text_loop char_buf x color bgcolor s current_x current_y
        = (text_cells x s current_x current_y).flatMap
            (fun c => mk_st7789_blit (List.replicate 64 (u16 bgcolor)) c.1 c.2 8 8) := by
  induction s with
  | nil => intro _ _; rfl
  | cons c s ih =>
    intro current_x current_y
    unfold mk_st7789_text_loop text_cells
    by_cases h0 : c = 0
    · simp [h0]
    · by_cases hn : c = 10
      · simp only [if_neg h0, if_pos hn, ih]
      · simp only [if_neg h0, if_neg hn, ih, get_letter_cell, List.flatMap_cons]

theorem u16i_lt (z : Int) : u16i z < 65536 := by
  simp only [u16i]
  omega

theorem u16_lt (n : Nat) : u16 n < 65536 := Nat.mod_lt _ (by decide)

/-- Under the memory-write command every item of a stream is logged, with its
own value, whatever the window and the write pointer are. -/
theorem stream_values (l : List Nat) :
    ∀ p : Panel, p.cmd = ST7789_RAMWR →
      ∃ new, (l.foldl Panel.data p).gram = p.gram ++ new ∧ new.map (fun e => e.2.2) = l := by
  induction l with
  | nil => intro p _; exact ⟨[], by simp, rfl⟩
  | cons v t ih =>
    intro p hc
    have hstep := data_ramwr p v hc
    obtain ⟨new, h1, h2⟩ := ih (Panel.data p v) (by rw [hstep]; exact hc)
    refine ⟨(p.col, p.row, v) :: new, ?_, ?_⟩
    · rw [List.foldl_cons, h1, hstep]
      simp
    · simp [h2]

theorem run_blit_values (p : Panel) (buf : List Nat) (x y : Nat) :
    ∃ new, (p.run (mk_st7789_blit buf x y 8 8)).gram = p.gram ++ new
      ∧ new.map (fun e => e.2.2) = buf.take 64 := by
  have h8 : u16 8 * u16 8 = 64 := by decide
  unfold mk_st7789_blit mk_st7789_write_pixels
  simp only [h8]
  rw [run_append, run_append, run_append,
    run_set_window p _ _ _ _ (u16_lt x) (u16i_lt _) (u16_lt y) (u16i_lt _),
    run_write_pixels_start]
  obtain ⟨new, h1, h2⟩ := stream_values (buf.take 64)
    { p with dc := true, cs := false, xs := u16 x,
             xe := u16i (((u16 x : Nat) : Int) + ((u16 8 : Nat) : Int) - 1), ys := u16 y,
             ye := u16i (((u16 y : Nat) : Int) + ((u16 8 : Nat) : Int) - 1),
             cmd := ST7789_RAMWR, nparam := 0, col := u16 x, row := u16 y } rfl
  refine ⟨new, ?_, h2⟩
  simp only [Panel.run, mk_st7789_write_pixels_end, List.foldl_cons, List.foldl_nil, Panel.step,
    Panel.receive, Bool.false_eq_true, if_false, if_true]
  exact h1

theorem run_cells_values (v : Nat) (cells : List (Nat × Nat)) :
    ∀ p : Panel,
      ∃ new,
        (p.run (cells.flatMap
            (fun c => mk_st7789_blit (List.replicate 64 v) c.1 c.2 8 8))).gram = p.gram ++ new
        ∧ (∀ e ∈ new, e.2.2 = v)
        ∧ new.length = 64 * cells.length := by
  induction cells with
  | nil => intro p; exact ⟨[], by simp [Panel.run], by simp, rfl⟩
  | cons c rest ih =>
    intro p
    obtain ⟨n1, g1, v1⟩ := run_blit_values p (List.replicate 64 v) c.1 c.2
    obtain ⟨n2, g2, v2, l2⟩ := ih (p.run (mk_st7789_blit (List.replicate 64 v) c.1 c.2 8 8))
    have htake : (List.replicate 64 v).take 64 = List.replicate 64 v := by
      apply List.take_of_length_le
      simp
    rw [htake] at v1
    refine ⟨n1 ++ n2, ?_, ?_, ?_⟩
    · rw [List.flatMap_cons, run_append, g2, g1, List.append_assoc]
    · intro e he
      rcases List.mem_append.mp he with h | h
      · have hm : e.2.2 ∈ n1.map (fun e => e.2.2) := List.mem_map.mpr ⟨e, h, rfl⟩
        rw [v1] at hm
        exact (List.mem_replicate.mp hm).2
      · exact v2 e h
    · have hl1 : n1.length = 64 := by
        have := congrArg List.length v1
        simpa using this
      rw [List.length_append, hl1, l2, List.length_cons]
      omega

/-- C16: for every `letter` (any `char` value), `color` and `bgcolor`,
`mk_st7789_get_letter` reads row `char_index - 32` of `font_8x8`, an index in
0..94 and so inside the 128-row table (0 for the characters outside 32..126);
every byte of the table is zero; the function leaves `bgcolor` in entries
0..63 of `fbuf` and changes no other entry, so an entry equals `color` only if
`color = bgcolor`.  `mk_st7789_text` makes the calls of one 8x8 blit of 64
halfwords `bgcolor` per character other than newline, up to the first NUL, and
every pixel the mock panel logs while it runs has color `bgcolor`. -/
theorem get_letter_background (fbuf char_buf : Nat → Nat) (letter : Int)
    (color bgcolor : Nat) (s : List Int) (x y : Nat) (p : Panel) :
    (mk_st7789_get_letter_index letter ≤ 94 ∧ 94 < font_8x8.length)
    ∧ ((u8i letter < 32 ∨ u8i letter > 126) → mk_st7789_get_letter_index letter = 0)
    ∧ (∀ i row, (font_8x8.getD i []).getD row 0 = 0)
    ∧ (∀ k, mk_st7789_get_letter fbuf letter color bgcolor k
        = if k < 64 then u16 bgcolor else fbuf k)
    ∧ (∀ k, k < 64 → mk_st7789_get_letter fbuf letter color bgcolor k = u16 color →
        u16 color = u16 bgcolor)
    ∧ mk_st7789_text char_buf s x y color bgcolor
        = (text_cells (u16 x) s (u16 x) (u16 y)).flatMap
            (fun c => mk_st7789_blit (List.replicate 64 (u16 bgcolor)) c.1 c.2 8 8)
    ∧ (∃ new, (p.run (mk_st7789_text char_buf s x y color bgcolor)).gram = p.gram ++ new
        ∧ (∀ e ∈ new, e.2.2 = u16 bgcolor)
        ∧ new.length = 64 * (text_cells (u16 x) s (u16 x) (u16 y)).length) := by
  have htext : mk_st7789_text char_buf s x y color bgcolor
      = (text_cells (u16 x) s (u16 x) (u16 y)).flatMap
          (fun c => mk_st7789_blit (List.replicate 64 (u16 bgcolor)) c.1 c.2 8 8) :=
    text_loop_eq char_buf (u16 x) color bgcolor s (u16 x) (u16 y)
  have hlen : font_8x8.length = 128 := by rw [font_8x8_eq]; simp
  refine ⟨⟨get_letter_index_le letter, by rw [hlen]; decide⟩, ?_, font_8x8_zero, ?_, ?_, htext,
    ?_⟩
  · intro h
    unfold mk_st7789_get_letter_index
    simp only [if_pos h]
  · intro k
    rw [get_letter_eq]
  · intro k hk h
    rw [get_letter_eq] at h
    simp only [if_pos hk] at h
    exact h.symm
  · rw [htext]
    exact run_cells_values (u16 bgcolor) _ p

end PharosGB
